import Mathlib

/-!
# S7Comm input plugin: a shallow embedding of `plugins/inputs/s7comm/s7comm.go`

The Go method `S7Comm.Gather` is one long function.  The embedding below follows it
block by block:

* `ParseInt`, `Split` and the slicing helpers model the Go standard library calls
  the function makes (`strconv.ParseInt(_, 10, 16)`, `strings.Split(_, ".")`,
  `s[a:b]`, `s[a:]`);
* `addressSwitch` is the `switch Area := node.Address[0:2]` block (lines 166-235);
* `typeSwitch` is the `switch dataType := node.Type` block (lines 236-258);
* `decodeItem` and `decodeLoop` are the decode loop (lines 274-316);
* `nodeBody` is the body of `for _, node := range metric.Nodes` (lines 164-321);
* `metricBody` is the body of `for _, metric := range metrics` (lines 157-327);
* `groupNodes` is the grouping loop (lines 136-155);
* `Gather` is the whole method, tick check included (lines 128-329).

A Go string is a sequence of bytes; it is represented by the list of its bytes, each
written as a `Char`.  Go `int` values are `Int`.  A run-time panic (slice bounds,
index out of range) is the `error` case of `Except Panic`.
-/

namespace s7comm

/-! ## Go strings and the standard library -/

/-- A Go string: its bytes, in order. -/
abbrev GoString := List Char

/-- The run-time panics the function can raise. -/
inductive Panic where
  | sliceBounds
  | indexOutOfRange
  deriving DecidableEq, Repr

/-- Go `s[a:b]`: panics unless `a <= b <= len(s)`. -/
def slice (s : GoString) (a b : Nat) : Except Panic GoString :=
  if a ≤ b ∧ b ≤ s.length then .ok ((s.take b).drop a) else .error .sliceBounds

/-- Go `s[a:]`: panics when `a > len(s)`. -/
def sliceFrom (s : GoString) (a : Nat) : Except Panic GoString :=
  if a ≤ s.length then .ok (s.drop a) else .error .sliceBounds

/-- Go `xs[i]` with an `int` index: panics when `i < 0` or `i >= len(xs)`. -/
def index {α : Type} (xs : List α) (i : Int) : Except Panic α :=
  if i < 0 then .error .indexOutOfRange
  else
    match xs.get? i.toNat with
    | some x => .ok x
    | none => .error .indexOutOfRange

/-- Go `strings.Split(s, ".")`: the segments between the dots; never empty. -/
def Split : GoString → List GoString
  | [] => [[]]
  | c :: cs =>
    match Split cs with
    | [] => [[]]
    | seg :: rest => if c = '.' then [] :: seg :: rest else (c :: seg) :: rest

/-- The two errors of `strconv`. -/
inductive NumError where
  | ErrSyntax
  | ErrRange
  deriving DecidableEq, Repr

/-- The digit loop of `strconv.ParseUint(s, 10, bitSize)`: `n` is the value so far,
`maxVal = 2^bitSize - 1`.  A byte that is no decimal digit ends the call with a
syntax error and value 0, a value above `maxVal` ends it with a range error and value
`maxVal`. -/
def parseUintLoop (maxVal : Nat) : GoString → Nat → Nat × Option NumError
  | [], n => (n, none)
  | c :: cs, n =>
    if '0'.toNat ≤ c.toNat ∧ c.toNat ≤ '9'.toNat then
      let d := c.toNat - '0'.toNat
      if n ≥ (2 ^ 64 - 1) / 10 + 1 then (maxVal, some .ErrRange)
      else
        let n10 := (n * 10) % 2 ^ 64
        let n1 := (n10 + d) % 2 ^ 64
        if n1 < n10 ∨ n1 > maxVal then (maxVal, some .ErrRange)
        else parseUintLoop maxVal cs n1
    else (0, some .ErrSyntax)

/-- Go `strconv.ParseUint(s, 10, bitSize)`. -/
def ParseUint (s : GoString) (bitSize : Nat) : Nat × Option NumError :=
  match s with
  | [] => (0, some .ErrSyntax)
  | _ => parseUintLoop (2 ^ bitSize - 1) s 0

/-- Go `strconv.ParseInt(s, 10, bitSize)`: an optional sign, then `ParseUint`; a value
out of the signed range is clamped to the nearest bound and reported as a range
error. -/
def ParseInt (s : GoString) (bitSize : Nat) : Int × Option NumError :=
  match s with
  | [] => (0, some .ErrSyntax)
  | c :: cs =>
    let neg := c = '-'
    let body := if c = '+' ∨ c = '-' then cs else c :: cs
    match ParseUint body bitSize with
    | (_, some .ErrSyntax) => (0, some .ErrSyntax)
    | (un, _) =>
      let cutoff := 2 ^ (bitSize - 1)
      if ¬ neg ∧ un ≥ cutoff then ((cutoff : Int) - 1, some .ErrRange)
      else if neg ∧ un > cutoff then (-(cutoff : Int), some .ErrRange)
      else (if neg then -(un : Int) else (un : Int), none)

/-! ## Constants and data types of the plugin -/

def s7bool : Int := 0
def s7byte : Int := 1
def s7word : Int := 2
def s7dword : Int := 3
def s7int : Int := 4
def s7dint : Int := 5
def s7uint : Int := 6
def s7udint : Int := 7
def s7real : Int := 8

def s7areape : Int := 0x81
def s7areapa : Int := 0x82
def s7areamk : Int := 0x83
def s7areadb : Int := 0x84

def MaxItemsPerReq : Int := 18

structure NodeSettings where
  MetricName : GoString
  Name : GoString
  Address : GoString
  Type_ : GoString
  deriving DecidableEq, Repr

structure Metrics where
  Name : GoString
  Count : Int
  Nodes : List NodeSettings
  deriving DecidableEq, Repr

/-- The `gos7.S7DataItem` the function builds.  `Data` is the slice `buf2[pos*4:]`,
kept as its start offset in `buf2`; `Error` is `errmsg[pos]`, always the empty
string. -/
structure S7DataItem where
  Area : Int
  WordLen : Int
  DBNumber : Int
  Start : Int
  Amount : Int
  Data : Nat
  Error : GoString
  deriving DecidableEq, Repr

/-- The values stored in the field map (`interface{}` holding one of these Go types).
A `float32` is kept as its 32-bit pattern. -/
inductive Value where
  | bool (b : Bool)
  | byte (v : Nat)
  | uint16 (v : Nat)
  | uint32 (v : Nat)
  | int16 (v : Int)
  | int32 (v : Int)
  | float32 (bits : Nat)
  deriving DecidableEq, Repr

/-- A Go `map[string]interface{}` as an association list with unique keys. -/
abbrev Fields := List (GoString × Value)

/-- Go `fields[k] = v`. -/
def Fields.set : Fields → GoString → Value → Fields
  | [], k, v => [(k, v)]
  | (k0, v0) :: rest, k, v =>
    if k0 = k then (k, v) :: rest else (k0, v0) :: Fields.set rest k v

/-- What the function does to the outside world, in order. -/
inductive Event where
  | logError (args : List GoString)
  | readMulti (items : List S7DataItem) (itemsCount : Int)
  | addFields (name : GoString) (fields : Fields)
  deriving DecidableEq, Repr

/-- The transport `s.client.AGReadMulti(items, pos)`, an external collaborator with a
state of its own: it either fails with an error text or, for each item in turn,
copies a byte string into the `Data` slice of that item. -/
structure Transport (σ : Type) where
  AGReadMulti : σ → List S7DataItem → Int → σ × Except GoString (List (List Nat))

/-- The receiver `s *S7Comm`, restricted to the fields `Gather` reads or writes. -/
structure S7Comm where
  PollInterval : Int
  PollingDisabled : Bool
  TicksPerInterval : Int
  TickCount : Int
  Nodes : List NodeSettings
  deriving DecidableEq, Repr

/-! ## The locals of one pass of the metric loop -/

/-- The variables declared at the top of the metric loop (lines 158-163).  `fields`
is `none` for a nil map; `make` gives `some []`. -/
structure Locals where
  pos : Int
  offset : Int
  s7_size : Int
  s7_dbNo : Int
  s7_dbIndex : Int
  s7_area : Int
  s7_bit : Int
  buf2 : List Nat
  items : List S7DataItem
  dtype : List Int
  fields : Option Fields
  deriving DecidableEq, Repr

/-- The values of lines 158-163: zero integers, a 72-byte zero buffer, nil slices and
a fresh (non-nil) map. -/
def Locals.init : Locals :=
  { pos := 0, offset := 0, s7_size := 0, s7_dbNo := 0, s7_dbIndex := 0, s7_area := 0,
    s7_bit := 0, buf2 := List.replicate 72 0, items := [], dtype := [],
    fields := some [] }

/-- The transport state and the events so far. -/
structure World (σ : Type) where
  tstate : σ
  trace : List Event

/-- One call of `s.Log.Error`. -/
def World.log {σ : Type} (w : World σ) (args : List GoString) : World σ :=
  { w with trace := w.trace ++ [Event.logError args] }

/-! ## Address resolution (lines 166-235) -/

/-- The case list of line 167. -/
def shorthandAreas : List GoString :=
  [['E','B'], ['I','B'], ['A','B'], ['Q','B'], ['M','B'],
   ['E','W'], ['I','W'], ['A','W'], ['Q','W'], ['M','W'],
   ['E','D'], ['I','D'], ['A','D'], ['Q','D'], ['M','D']]

/-- Lines 168-183: the shorthand branch.  Neither inner switch has a default, so a
first letter `M` leaves `s7_area` as it was. -/
def shorthandBranch (l : Locals) (node : NodeSettings) (Area : GoString) :
    Except Panic (Locals × Option (List GoString)) :=
  match sliceFrom node.Address 2 with
  | .error p => .error p
  | .ok rest =>
    let ioIndex := (ParseInt rest 16).1
    match slice node.Address 0 1 with
    | .error p => .error p
    | .ok ioType =>
      let l1 :=
        if ioType = ['E'] ∨ ioType = ['I'] then { l with s7_area := s7areape }
        else if ioType = ['A'] ∨ ioType = ['Q'] then { l with s7_area := s7areapa }
        else l
      match slice Area 1 2 with
      | .error p => .error p
      | .ok ioSize =>
        let l2 :=
          if ioSize = ['B'] then { l1 with s7_size := 1 }
          else if ioSize = ['W'] then { l1 with s7_size := 2 }
          else if ioSize = ['D'] then { l1 with s7_size := 4 }
          else l1
        .ok ({ l2 with s7_dbIndex := ioIndex, s7_dbNo := 0 }, none)

/-- Lines 185-213: the data-block branch.  `some msg` is a logged error followed by
`continue`. -/
def dbBranch (l : Locals) (node : NodeSettings) :
    Except Panic (Locals × Option (List GoString)) :=
  let dbArray := Split node.Address
  if dbArray.length < 2 then
    .ok (l, some ["Db Area read variable should not be empty".toList])
  else
    match index dbArray 0 with
    | .error p => .error p
    | .ok seg0 =>
      match sliceFrom seg0 2 with
      | .error p => .error p
      | .ok noStr =>
        let dbNo := (ParseInt noStr 16).1
        match index dbArray 1 with
        | .error p => .error p
        | .ok seg1 =>
          match sliceFrom seg1 3 with
          | .error p => .error p
          | .ok idxStr =>
            let dbIndex := (ParseInt idxStr 16).1
            match slice seg1 0 3 with
            | .error p => .error p
            | .ok dbType =>
              let l1 := { l with s7_dbIndex := dbIndex, s7_dbNo := dbNo, s7_area := s7areadb }
              if dbType = ['D','B','B'] then .ok ({ l1 with s7_size := 1 }, none)
              else if dbType = ['D','B','X'] then
                let l2 := { l1 with s7_size := 1 }
                match index dbArray 2 with
                | .error p => .error p
                | .ok seg2 =>
                  match sliceFrom seg2 0 with
                  | .error p => .error p
                  | .ok bitStr =>
                    let dbBit := (ParseInt bitStr 16).1
                    if dbBit > 7 ∨ dbBit < 0 then
                      .ok (l2, some ["Db Read Bit is invalid for address ".toList, node.Address])
                    else .ok ({ l2 with s7_bit := dbBit * 16 }, none)
              else if dbType = ['D','B','W'] then .ok ({ l1 with s7_size := 2 }, none)
              else if dbType = ['D','B','D'] then .ok ({ l1 with s7_size := 4 }, none)
              else .ok (l1, some ["Error when parsing dbtype for address ".toList, node.Address])

/-- Lines 216-234: the fallback branch for bit addresses such as `I0.1`. -/
def genericBranch (l : Locals) (node : NodeSettings) :
    Except Panic (Locals × Option (List GoString)) :=
  match slice node.Address 0 1 with
  | .error p => .error p
  | .ok otherArea =>
    let area : Option Int :=
      if otherArea = ['I'] ∨ otherArea = ['E'] then some s7areape
      else if otherArea = ['0'] ∨ otherArea = ['A'] then some s7areapa
      else if otherArea = ['M'] then some s7areamk
      else none
    match area with
    | none => .ok (l, some ["Error when parsing dbtype for address ".toList, node.Address])
    | some a =>
      let l1 := { l with s7_area := a }
      let ioArray := Split node.Address
      match index ioArray 0 with
      | .error p => .error p
      | .ok seg0 =>
        match sliceFrom seg0 1 with
        | .error p => .error p
        | .ok idxStr =>
          let ioIndex := (ParseInt idxStr 16).1
          match index ioArray 1 with
          | .error p => .error p
          | .ok seg1 =>
            match sliceFrom seg1 0 with
            | .error p => .error p
            | .ok bitStr =>
              let ioBit := (ParseInt bitStr 16).1
              if ioBit > 7 ∨ ioBit < 0 then
                .ok (l1, some ["Db Read Bit is invalid for address ".toList, node.Address])
              else
                .ok ({ l1 with s7_dbIndex := ioIndex, s7_dbNo := 0, s7_size := 1,
                               s7_bit := ioBit * 16 }, none)

/-- Lines 166-235: `switch Area := node.Address[0:2]`.  The result is the updated
locals and, when the node is given up with `continue`, the logged error. -/
def addressSwitch (l : Locals) (node : NodeSettings) :
    Except Panic (Locals × Option (List GoString)) :=
  match slice node.Address 0 2 with
  | .error p => .error p
  | .ok Area =>
    if Area ∈ shorthandAreas then shorthandBranch l node Area
    else if Area = ['D','B'] then dbBranch l node
    else genericBranch l node

/-- Lines 236-258: `switch dataType := node.Type`.  The tag appended to `dtype`, or
`none` for the default case (logged, then `continue`). -/
def typeSwitch (l : Locals) (node : NodeSettings) : Option Int :=
  if node.Type_ = "bool".toList then some l.s7_bit
  else if node.Type_ = "byte".toList then some s7byte
  else if node.Type_ = "word".toList then some s7word
  else if node.Type_ = "dword".toList then some s7dword
  else if node.Type_ = "int".toList then some s7int
  else if node.Type_ = "dint".toList ∨ node.Type_ = "time".toList then some s7dint
  else if node.Type_ = "uint".toList then some s7uint
  else if node.Type_ = "udint".toList then some s7udint
  else if node.Type_ = "real".toList then some s7real
  else none

/-- Lines 259-266: the item literal.  `buf2[pos*4:]` and `errmsg[pos]` are evaluated
in that order and may panic. -/
def mkItem (l : Locals) : Except Panic S7DataItem :=
  if l.pos * 4 < 0 ∨ l.pos * 4 > (l.buf2.length : Int) then .error .sliceBounds
  else if l.pos < 0 ∨ l.pos ≥ 18 then .error .indexOutOfRange
  else .ok { Area := l.s7_area, WordLen := 0x02, DBNumber := l.s7_dbNo,
             Start := l.s7_dbIndex, Amount := l.s7_size, Data := (l.pos * 4).toNat,
             Error := [] }

/-- Lines 164-268 for one node, without the batch check that follows: the address
switch, the type switch and the two appends.  `some msg` tells that the node ended in
`continue` after logging `msg`. -/
def resolveNode (l : Locals) (node : NodeSettings) :
    Except Panic (Locals × Option (List GoString)) :=
  match addressSwitch l node with
  | .error p => .error p
  | .ok (l1, some msg) => .ok (l1, some msg)
  | .ok (l1, none) =>
    match typeSwitch l1 node with
    | none =>
      .ok (l1, some ["Unknown datatype \x27".toList, node.Type_, "\x27 for ".toList,
                     node.Address])
    | some tag =>
      match mkItem l1 with
      | .error p => .error p
      | .ok item =>
        .ok ({ l1 with dtype := l1.dtype ++ [tag], items := l1.items ++ [item],
                       pos := l1.pos + 1 }, none)

/-! ## Reading and decoding a batch (lines 269-320) -/

/-- Go `copy(dst[off:], src)`: overwrite `dst` from `off` on, never growing it. -/
def writeAt : List Nat → Nat → List Nat → List Nat
  | [], _, _ => []
  | b :: bs, 0, [] => b :: bs
  | _ :: bs, 0, x :: xs => x :: writeAt bs 0 xs
  | b :: bs, off + 1, xs => b :: writeAt bs off xs

/-- The effect of a successful `AGReadMulti` on `buf2`: the bytes returned for each
item land in the `Data` slice of that item. -/
def storeReads : List Nat → List S7DataItem → List (List Nat) → List Nat
  | buf, it :: its, d :: ds => storeReads (writeAt buf it.Data d) its ds
  | buf, _, _ => buf

/-- Big-endian unsigned read of `n` bytes at `off`, as `helper.GetValueAt` does through
`binary.Read(_, binary.BigEndian, _)`. -/
def readBE (buf : List Nat) (off : Nat) : Nat → Nat
  | 0 => 0
  | n + 1 => readBE buf off n * 256 + (buf.getD (off + n) 0) % 256

/-- Reinterpret an unsigned `w`-bit pattern as a signed integer. -/
def toSigned (w : Nat) (v : Nat) : Int :=
  if v < 2 ^ (w - 1) then (v : Int) else (v : Int) - 2 ^ w

/-- The table of line 278. -/
def mask : List Nat := [0x01, 0x02, 0x04, 0x08, 0x10, 0x20, 0x40, 0x80]

/-- Lines 275-315 for one `i`: the value to store, `none` when no case of the switch
matches.  `dtype[i] & 0x0F` is `% 16` and `dtype[i] >> 4` is `/ 16`. -/
def decodeItem (buf : List Nat) (tag : Int) (i : Nat) : Except Panic (Option Value) :=
  let dataType := tag % 16
  if dataType = s7bool then
    let bit := tag / 16
    let res := readBE buf (i * 4) 1
    match index mask bit with
    | .error p => .error p
    | .ok m => .ok (some (Value.bool (Nat.land res m != 0)))
  else if dataType = s7byte then .ok (some (Value.byte (readBE buf (i * 4) 1)))
  else if dataType = s7word then .ok (some (Value.uint16 (readBE buf (i * 4) 2)))
  else if dataType = s7dword then .ok (some (Value.uint32 (readBE buf (i * 4) 4)))
  else if dataType = s7int then .ok (some (Value.int16 (toSigned 16 (readBE buf (i * 4) 2))))
  else if dataType = s7dint then .ok (some (Value.int32 (toSigned 32 (readBE buf (i * 4) 4))))
  else if dataType = s7uint then .ok (some (Value.uint16 (readBE buf (i * 4) 2)))
  else if dataType = s7udint then .ok (some (Value.uint32 (readBE buf (i * 4) 4)))
  else if dataType = s7real then .ok (some (Value.float32 (readBE buf (i * 4) 4)))
  else .ok none

/-- Go `fields[k] = v` on a possibly nil map (the map of line 163 is never nil). -/
def assign (fields : Option Fields) (k : GoString) (v : Value) : Option Fields :=
  match fields with
  | some f => some (Fields.set f k v)
  | none => none

/-- Lines 274-316: `for i := 0; i < len(items); i++`, with `n` iterations left from
index `i` on.  The field name is `metric.Nodes[offset+i].Name`. -/
def decodeLoop (metric : Metrics) (l : Locals) : Nat → Nat → Option Fields →
    Except Panic (Option Fields)
  | 0, _, fields => .ok fields
  | n + 1, i, fields =>
    match index l.dtype (i : Int) with
    | .error p => .error p
    | .ok tag =>
      match decodeItem l.buf2 tag i with
      | .error p => .error p
      | .ok none => decodeLoop metric l n (i + 1) fields
      | .ok (some v) =>
        match index metric.Nodes (l.offset + (i : Int)) with
        | .error p => .error p
        | .ok nd => decodeLoop metric l n (i + 1) (assign fields nd.Name v)

/-- Lines 269-320: the batch check after a node.  When the batch is full or
`len(items)+offset` equals `metric.Count`, the items are read and decoded, then
`offset, dtype, items = pos, nil, nil` and `pos = 0`. -/
def flushCheck {σ : Type} (tr : Transport σ) (metric : Metrics) (w : World σ) (l : Locals) :
    Except Panic (World σ × Locals) :=
  if (l.items.length : Int) = MaxItemsPerReq ∨ (l.items.length : Int) + l.offset = metric.Count
  then
    let r := tr.AGReadMulti w.tstate l.items l.pos
    let w1 : World σ := { tstate := r.1, trace := w.trace ++ [Event.readMulti l.items l.pos] }
    match r.2 with
    | .error err =>
      .ok (w1.log [err], { l with offset := l.pos, dtype := [], items := [], pos := 0 })
    | .ok datas =>
      let l1 := { l with buf2 := storeReads l.buf2 l.items datas }
      match decodeLoop metric l1 l1.items.length 0 l1.fields with
      | .error p => .error p
      | .ok fields =>
        .ok (w1, { l1 with fields := fields, offset := l1.pos, dtype := [], items := [],
                           pos := 0 })
  else .ok (w, l)

/-- Lines 164-321: the body of `for _, node := range metric.Nodes`.  A node given up
with `continue` skips the batch check. -/
def nodeBody {σ : Type} (tr : Transport σ) (metric : Metrics) (w : World σ) (l : Locals)
    (node : NodeSettings) : Except Panic (World σ × Locals) :=
  if node.MetricName = metric.Name then
    match resolveNode l node with
    | .error p => .error p
    | .ok (l1, some msg) => .ok (w.log msg, l1)
    | .ok (l1, none) => flushCheck tr metric w l1
  else flushCheck tr metric w l

/-- The loop `for _, node := range metric.Nodes` over the remaining nodes. -/
def nodeLoop {σ : Type} (tr : Transport σ) (metric : Metrics) :
    List NodeSettings → World σ → Locals → Except Panic (World σ × Locals)
  | [], w, l => .ok (w, l)
  | node :: rest, w, l =>
    match nodeBody tr metric w l node with
    | .error p => .error p
    | .ok (w1, l1) => nodeLoop tr metric rest w1 l1

/-- Lines 157-327: the body of `for _, metric := range metrics`.  After the node loop
the record is emitted `if fields != nil`. -/
def metricBody {σ : Type} (tr : Transport σ) (w : World σ) (metric : Metrics) :
    Except Panic (World σ) :=
  match nodeLoop tr metric metric.Nodes w Locals.init with
  | .error p => .error p
  | .ok (w1, l) =>
    match l.fields with
    | some f => .ok { w1 with trace := w1.trace ++ [Event.addFields metric.Name f] }
    | none => .ok w1

/-- The loop `for _, metric := range metrics`. -/
def metricLoop {σ : Type} (tr : Transport σ) : List Metrics → World σ → Except Panic (World σ)
  | [], w => .ok w
  | metric :: rest, w =>
    match metricBody tr w metric with
    | .error p => .error p
    | .ok w1 => metricLoop tr rest w1

/-! ## Grouping and the method itself -/

/-- Lines 141-149: the search for a metric of the same name; `none` when not found. -/
def addToMetric (node : NodeSettings) : List Metrics → Option (List Metrics)
  | [] => none
  | m :: rest =>
    if node.MetricName = m.Name then
      some ({ m with Count := m.Count + 1, Nodes := m.Nodes ++ [node] } :: rest)
    else
      match addToMetric node rest with
      | some rest1 => some (m :: rest1)
      | none => none

/-- Lines 136-155: the metrics of the configured nodes, in first-seen order. -/
def groupNodes : List NodeSettings → List Metrics → List Metrics
  | [], metrics => metrics
  | node :: rest, metrics =>
    match addToMetric node metrics with
    | some metrics1 => groupNodes rest metrics1
    | none =>
      groupNodes rest (metrics ++ [{ Name := node.MetricName, Count := 1, Nodes := [node] }])

/-- Go `int64` wrap-around. -/
def wrapInt64 (x : Int) : Int := (x + 2 ^ 63) % 2 ^ 64 - 2 ^ 63

/-- Lines 95-101 of `Init`: the number of ticks per polling interval (`Connect` is the
transport collaborator and is left out).  A tick is 10 ms, durations are in
nanoseconds; Go integer division truncates toward zero. -/
def Init (s : S7Comm) : S7Comm :=
  if s.PollingDisabled then { s with TicksPerInterval := 1 }
  else { s with TicksPerInterval := Int.tdiv s.PollInterval 10000000 }

/-- Lines 128-329: `Gather`.  The result is the receiver after the call, the transport
state and the events of the call, or the panic that ended it. -/
def Gather {σ : Type} (s : S7Comm) (tr : Transport σ) (st : σ) :
    Except Panic (S7Comm × σ × List Event) :=
  if s.TickCount = s.TicksPerInterval then
    let s1 := { s with TickCount := 0 }
    match metricLoop tr (groupNodes s1.Nodes []) { tstate := st, trace := [] } with
    | .error p => .error p
    | .ok w => .ok (s1, w.tstate, w.trace)
  else
    .ok ({ s with TickCount := wrapInt64 (s.TickCount + 1) }, st, [])

/-! ## Observations on a run -/

/-- The item batches handed to the transport, in call order. -/
def readBatches : List Event → List (List S7DataItem)
  | [] => []
  | Event.readMulti items _ :: rest => items :: readBatches rest
  | _ :: rest => readBatches rest

/-- The records handed to the metrics sink, in call order. -/
def emitted : List Event → List (GoString × Fields)
  | [] => []
  | Event.addFields name fields :: rest => (name, fields) :: emitted rest
  | _ :: rest => emitted rest

/-- The events of a run, `none` when it panicked. -/
def eventsOf {σ : Type} (r : Except Panic (S7Comm × σ × List Event)) : Option (List Event) :=
  match r with
  | .ok (_, _, t) => some t
  | .error _ => none

/-- The panic of a run, `none` when it returned. -/
def panicOf {α : Type} (r : Except Panic α) : Option Panic :=
  match r with
  | .ok _ => none
  | .error p => some p

/-- The events of each of the next `n` invocations of `Gather`, `none` for one that
panicked (the sequence stops there). -/
def gatherRuns {σ : Type} (tr : Transport σ) : Nat → S7Comm → σ → List (Option (List Event))
  | 0, _, _ => []
  | n + 1, s, st =>
    match Gather s tr st with
    | .error _ => [none]
    | .ok (s1, st1, t) => some t :: gatherRuns tr n s1 st1

/-! ## Decimal notation -/

/-- The decimal numeral of a natural number. -/
def decimal (n : Nat) : GoString := Nat.toDigits 10 n

/-- The decimal numeral of an integer, with a leading minus sign when negative. -/
def decimalInt (v : Int) : GoString :=
  if v < 0 then '-' :: decimal (-v).toNat else decimal v.toNat

/-! ## Configurations used as concrete inputs -/

/-- Big-endian bytes of `v`, `n` of them. -/
def beBytes (v : Nat) : Nat → List Nat
  | 0 => []
  | n + 1 => beBytes (v / 256) n ++ [v % 256]

/-- A transport that always succeeds and answers every item with its own start
offset, big-endian, in `Amount` bytes: the value read from a point tells which point
it was. -/
def echoTransport : Transport Unit :=
  { AGReadMulti := fun _ items _ =>
      ((), .ok (items.map fun it => beBytes it.Start.toNat it.Amount.toNat)) }

/-- The `i`-th point of a test group: field `f<i>` at `DB1.DBW<2i>`, declared `word`.
Read through `echoTransport` its value is `2 * i`. -/
def wordNode (metric : GoString) (i : Nat) : NodeSettings :=
  { MetricName := metric, Name := 'f' :: decimal i,
    Address := "DB1.DBW".toList ++ decimal (2 * i), Type_ := "word".toList }

/-- A group of `k` resolvable points. -/
def wordGroup (metric : GoString) (k : Nat) : List NodeSettings :=
  (List.range k).map (wordNode metric)

/-- A point with the malformed address `DB1`. -/
def badNode (metric : GoString) : NodeSettings :=
  { MetricName := metric, Name := "bad".toList, Address := "DB1".toList,
    Type_ := "word".toList }

/-- A node with the given address and declared type. -/
def nodeAt (address type : String) : NodeSettings :=
  { MetricName := "m".toList, Name := "a".toList, Address := address.toList,
    Type_ := type.toList }

/-- A receiver whose next `Gather` performs the read (`TickCount = TicksPerInterval`). -/
def readyConfig (nodes : List NodeSettings) : S7Comm :=
  { PollInterval := 0, PollingDisabled := true, TicksPerInterval := 1, TickCount := 1,
    Nodes := nodes }

/-- A receiver as `Init` leaves it for a polling interval of 50 ms (five ticks of
10 ms), before the first tick. -/
def fiveTickConfig : S7Comm :=
  Init { PollInterval := 50000000, PollingDisabled := false, TicksPerInterval := 0,
         TickCount := 0, Nodes := wordGroup "m".toList 1 }

/-! ## Address forms and range notions of the specification -/

/-- The address `DB<n>.DBX<b>.<bit>`, the bit segment given as text. -/
def dbxAddress (n b : Nat) (bit : GoString) : GoString :=
  'D' :: 'B' :: (decimal n ++ '.' :: 'D' :: 'B' :: 'X' :: (decimal b ++ '.' :: bit))

/-- The generic bit address `<c><b>.<bit>`, the bit segment given as text. -/
def genericAddress (c : Char) (b : Nat) (bit : GoString) : GoString :=
  c :: (decimal b ++ '.' :: bit)

/-- The first characters the fallback branch accepts (lines 217-222). -/
def genericAreas : List Char := ['I', 'E', '0', 'A', 'M']

/-- The value `ParseInt(_, 10, 16)` returns for the decimal numeral of `n`: `n` itself
up to 32767, and 32767 beyond. -/
def clamp16 (n : Nat) : Int := if n ≤ 32767 then (n : Int) else 32767

/-- The natural width of a declared type as the specification lists it: bool and byte 1,
word, int and uint 2, dword, dint, time, udint and real 4. -/
def naturalWidth (ty : GoString) : Option Int :=
  if ty = "bool".toList ∨ ty = "byte".toList then some 1
  else if ty = "word".toList ∨ ty = "int".toList ∨ ty = "uint".toList then some 2
  else if ty = "dword".toList ∨ ty = "dint".toList ∨ ty = "time".toList ∨
      ty = "udint".toList ∨ ty = "real".toList then some 4
  else none

/-- The items and decode tags a node resolution leaves behind, `none` when it
panicked. -/
def resolvedOf (r : Except Panic (Locals × Option (List GoString))) :
    Option (List S7DataItem × List Int) :=
  match r with
  | .ok (l, _) => some (l.items, l.dtype)
  | .error _ => none

/-- The part of the locals that address resolution never touches. -/
def Locals.frame (l : Locals) : Int × Int × List Nat × List S7DataItem × List Int × Option Fields :=
  (l.pos, l.offset, l.buf2, l.items, l.dtype, l.fields)

/-- The decode tag the type switch gives a known declared type (`bit` for bool). -/
def typeTag (bit : Int) (ty : GoString) : Int :=
  if ty = "bool".toList then bit
  else if ty = "byte".toList then s7byte
  else if ty = "word".toList then s7word
  else if ty = "dword".toList then s7dword
  else if ty = "int".toList then s7int
  else if ty = "dint".toList ∨ ty = "time".toList then s7dint
  else if ty = "uint".toList then s7uint
  else if ty = "udint".toList then s7udint
  else s7real

/-- The area the fallback branch selects for an accepted first character. -/
def genericArea (c : Char) : Int :=
  if c = 'I' ∨ c = 'E' then s7areape
  else if c = '0' ∨ c = 'A' then s7areapa
  else s7areamk

/-- Two's complement reading of a `w`-bit pattern, as the specification words it. -/
def twosComplement (w : Nat) (v : Nat) : Int :=
  ((v : Int) + 2 ^ (w - 1)) % 2 ^ w - 2 ^ (w - 1)

/-- The value the specification assigns to a slot `b0 b1 b2 b3` under a declared type
(bool and real apart): byte is `b0`; word and uint are `256*b0 + b1`; int is the same 16
bits signed; dword and udint are `2^24*b0 + 2^16*b1 + 2^8*b2 + b3`; dint and time are
the same 32 bits signed. -/
def declaredValue (ty : GoString) (b0 b1 b2 b3 : Nat) : Option Value :=
  if ty = "byte".toList then some (Value.byte b0)
  else if ty = "word".toList ∨ ty = "uint".toList then some (Value.uint16 (256 * b0 + b1))
  else if ty = "int".toList then some (Value.int16 (twosComplement 16 (256 * b0 + b1)))
  else if ty = "dword".toList ∨ ty = "udint".toList then
    some (Value.uint32 (2 ^ 24 * b0 + 2 ^ 16 * b1 + 2 ^ 8 * b2 + b3))
  else if ty = "dint".toList ∨ ty = "time".toList then
    some (Value.int32 (twosComplement 32 (2 ^ 24 * b0 + 2 ^ 16 * b1 + 2 ^ 8 * b2 + b3)))
  else none

/-- The address `DB<n>.<code><b>` with a three-letter field code. -/
def dbAddress (n : Nat) (code : GoString) (b : Nat) : GoString :=
  'D' :: 'B' :: (decimal n ++ '.' :: (code ++ decimal b))

/-- The shorthand address `<c1><c2><n>`. -/
def shorthandAddress (c1 c2 : Char) (n : Nat) : GoString :=
  c1 :: c2 :: decimal n

/-- The byte size the specification gives the field codes `DBB`, `DBW`, `DBD`. -/
def fieldCodeSize (code : GoString) : Option Int :=
  if code = ['D', 'B', 'B'] then some 1
  else if code = ['D', 'B', 'W'] then some 2
  else if code = ['D', 'B', 'D'] then some 4
  else none

/-- The area the specification gives a shorthand of first letter `E`, `I` (input) or
`A`, `Q` (output). -/
def shorthandArea (c1 : Char) : Option Int :=
  if c1 = 'E' ∨ c1 = 'I' then some 0x81
  else if c1 = 'A' ∨ c1 = 'Q' then some 0x82
  else none

/-- The byte size the specification gives the second letter of a shorthand. -/
def shorthandSize (c2 : Char) : Option Int :=
  if c2 = 'B' then some 1
  else if c2 = 'W' then some 2
  else if c2 = 'D' then some 4
  else none

/-- A bit tag: `16 * k` with `k` in 0..7, written with the operations the decode loop
applies (`& 0x0F` is `% 16`, `>> 4` is `/ 16`). -/
def bitTag (t : Int) : Prop := t % 16 = 0 ∧ 0 ≤ t / 16 ∧ t / 16 ≤ 7

/-- A decode tag is one of the constants 1..8 or a bit tag. -/
def validTag (t : Int) : Prop := (1 ≤ t ∧ t ≤ 8) ∨ bitTag t

/-- The invariant of the locals behind claim C20: `s7_bit` is a bit tag and every tag
in `dtype` is valid. -/
def TagInv (l : Locals) : Prop := bitTag l.s7_bit ∧ ∀ t ∈ l.dtype, validTag t

/-- Every batch handed to the transport has between 1 and `MaxItemsPerReq` items and
comes with its own length as item count. -/
def TraceOK (t : List Event) : Prop :=
  ∀ items cnt, Event.readMulti items cnt ∈ t →
    1 ≤ items.length ∧ (items.length : Int) ≤ MaxItemsPerReq ∧ cnt = (items.length : Int)

/-- The invariant of the locals between two nodes behind claim C16: `pos` counts the
items of the open batch, which is not full. -/
def BatchInv (l : Locals) : Prop := l.pos = (l.items.length : Int) ∧ l.items.length < 18

/-- A metric as the grouping loop builds it: every node carries the name of the
metric. -/
def Metrics.wf (m : Metrics) : Prop := ∀ n ∈ m.Nodes, n.MetricName = m.Name

/-- Every node of the list resolves, one after the other, none being given up: the
locals after the last one. -/
def resolveAll : Locals → List NodeSettings → Option Locals
  | l, [] => some l
  | l, node :: rest =>
    match resolveNode l node with
    | .ok (l1, none) => resolveAll l1 rest
    | _ => none

/-- A node of metric `m` with the given field name, address and declared type. -/
def nodeNamed (name address type : String) : NodeSettings :=
  { MetricName := "m".toList, Name := name.toList, Address := address.toList,
    Type_ := type.toList }

/-- A transport that always succeeds and answers every call with the same byte strings,
one per item. -/
def slotTransport (datas : List (List Nat)) : Transport Unit :=
  { AGReadMulti := fun _ _ _ => ((), .ok datas) }

/-! ## Decimal numerals and `ParseInt` -/

theorem toDigitsCore_append (fuel : Nat) : ∀ (n : Nat) (ds : List Char),
    Nat.toDigitsCore 10 fuel n ds = Nat.toDigitsCore 10 fuel n [] ++ ds := by
  induction fuel with
  | zero => intro n ds; simp [Nat.toDigitsCore]
  | succ f ih =>
    intro n ds
    simp only [Nat.toDigitsCore]
    split
    · simp
    · rw [ih (n / 10) (_ :: ds), ih (n / 10) [_]]; simp

theorem toDigitsCore_fuel (f : Nat) : ∀ (g n : Nat), n < f → n < g →
    Nat.toDigitsCore 10 f n [] = Nat.toDigitsCore 10 g n [] := by
  induction f with
  | zero => intro g n h; omega
  | succ f ih =>
    intro g n hf hg
    cases g with
    | zero => omega
    | succ g =>
      simp only [Nat.toDigitsCore]
      split
      · rfl
      · rename_i h
        rw [toDigitsCore_append f, toDigitsCore_append g, ih g (n / 10) (by omega) (by omega)]

theorem decimal_small (n : Nat) (h : n < 10) : decimal n = [Nat.digitChar n] := by
  have h0 : n / 10 = 0 := by omega
  have h1 : n % 10 = n := by omega
  simp [decimal, Nat.toDigits, Nat.toDigitsCore, h0, h1]

theorem decimal_step (n : Nat) (h : 10 ≤ n) :
    decimal n = decimal (n / 10) ++ [Nat.digitChar (n % 10)] := by
  have h0 : n / 10 ≠ 0 := by omega
  have h1 : Nat.toDigitsCore 10 (n + 1) n [] =
      Nat.toDigitsCore 10 n (n / 10) [Nat.digitChar (n % 10)] := by
    simp only [Nat.toDigitsCore, h0, if_false]
  unfold decimal Nat.toDigits
  rw [h1, toDigitsCore_append, toDigitsCore_fuel n (n / 10 + 1) (n / 10) (by omega) (by omega)]

theorem digitChar_toNat (d : Nat) (h : d < 10) : (Nat.digitChar d).toNat = 48 + d := by
  interval_cases d <;> rfl

theorem decimal_digits (n : Nat) : ∀ c ∈ decimal n, 48 ≤ c.toNat ∧ c.toNat ≤ 57 := by
  induction n using Nat.strong_induction_on with
  | _ n ih =>
    by_cases h : n < 10
    · rw [decimal_small n h]
      intro c hc
      simp only [List.mem_singleton] at hc
      subst hc
      rw [digitChar_toNat n h]; omega
    · rw [decimal_step n (by omega)]
      intro c hc
      rcases List.mem_append.mp hc with hc | hc
      · exact ih (n / 10) (by omega) c hc
      · simp only [List.mem_singleton] at hc
        subst hc
        rw [digitChar_toNat _ (by omega)]; omega

theorem decimal_ne_nil (n : Nat) : decimal n ≠ [] := by
  by_cases h : n < 10
  · rw [decimal_small n h]; simp
  · rw [decimal_step n (by omega)]; simp



theorem parseUintLoop_snoc (M : Nat) (c : Char) : ∀ (xs : GoString) (a : Nat),
    parseUintLoop M (xs ++ [c]) a =
      match parseUintLoop M xs a with
      | (v, none) => parseUintLoop M [c] v
      | r => r := by
  intro xs
  induction xs with
  | nil => intro a; simp [parseUintLoop]
  | cons x xs ih =>
    intro a
    simp only [List.cons_append, parseUintLoop]
    split
    · split
      · rfl
      · split
        · rfl
        · exact ih _
    · rfl

theorem parseUintLoop_digit (d v : Nat) (hd : d < 10) (hv : v ≤ 65535) :
    parseUintLoop 65535 [Nat.digitChar d] v =
      if v * 10 + d ≤ 65535 then (v * 10 + d, none) else (65535, some NumError.ErrRange) := by
  have hc := digitChar_toNat d hd
  have h1 : (v * 10) % 2 ^ 64 = v * 10 := Nat.mod_eq_of_lt (by omega)
  have h2 : (v * 10 + d) % 2 ^ 64 = v * 10 + d := Nat.mod_eq_of_lt (by omega)
  have h48 : '0'.toNat = 48 := rfl
  have h57 : '9'.toNat = 57 := rfl
  simp only [parseUintLoop, hc, h48, h57]
  rw [if_pos (by omega), if_neg (by omega)]
  simp only [Nat.add_sub_cancel_left, h1, h2]
  by_cases h : v * 10 + d ≤ 65535
  · rw [if_neg (by omega), if_pos h]
  · rw [if_pos (by omega), if_neg h]

theorem parseUintLoop_decimal (n : Nat) :
    parseUintLoop 65535 (decimal n) 0 =
      if n ≤ 65535 then (n, none) else (65535, some NumError.ErrRange) := by
  induction n using Nat.strong_induction_on with
  | _ n ih =>
    by_cases h : n < 10
    · rw [decimal_small n h, parseUintLoop_digit n 0 h (by omega)]
      simp
    · rw [decimal_step n (by omega), parseUintLoop_snoc, ih (n / 10) (by omega)]
      by_cases h2 : n / 10 ≤ 65535
      · rw [if_pos h2]
        simp only
        rw [parseUintLoop_digit _ _ (by omega) h2]
        have : n / 10 * 10 + n % 10 = n := by omega
        rw [this]
      · rw [if_neg h2, if_neg (by omega)]

theorem ParseUint_decimal (n : Nat) :
    ParseUint (decimal n) 16 =
      if n ≤ 65535 then (n, none) else (65535, some NumError.ErrRange) := by
  have hne := decimal_ne_nil n
  rw [← parseUintLoop_decimal]
  unfold ParseUint
  split
  · contradiction
  · rfl

theorem decimal_head (n : Nat) : ∃ c cs, decimal n = c :: cs ∧ c ≠ '+' ∧ c ≠ '-' := by
  have hne := decimal_ne_nil n
  have hd := decimal_digits n
  cases hs : decimal n with
  | nil => contradiction
  | cons c cs =>
    refine ⟨c, cs, rfl, ?_, ?_⟩
    · intro hc
      have := hd c (by rw [hs]; simp)
      subst hc
      simp at this
    · intro hc
      have := hd c (by rw [hs]; simp)
      subst hc
      simp at this

theorem ParseInt_decimal (n : Nat) :
    (ParseInt (decimal n) 16).1 = if n ≤ 32767 then (n : Int) else 32767 := by
  obtain ⟨c, cs, hs, hp, hm⟩ := decimal_head n
  have hu := ParseUint_decimal n
  rw [hs] at hu
  rw [hs]
  simp only [ParseInt, hp, hm, false_or, if_false, hu]
  by_cases h1 : n ≤ 65535
  · simp only [if_pos h1]
    by_cases h2 : n ≤ 32767
    · simp only [if_pos h2]
      simp
      rw [if_neg (by omega)]
    · simp only [if_neg h2]
      simp
      rw [if_pos (by omega)]
  · simp only [if_neg h1]
    have : ¬ n ≤ 32767 := by omega
    simp [this]

theorem ParseInt_neg_decimal (n : Nat) :
    (ParseInt ('-' :: decimal n) 16).1 = if n ≤ 32768 then -(n : Int) else -32768 := by
  have hu := ParseUint_decimal n
  simp only [ParseInt, or_true, if_true, hu]
  by_cases h1 : n ≤ 65535
  · rw [if_pos h1]
    by_cases h2 : n ≤ 32768
    · simp only [if_pos h2]
      simp
      rw [if_neg (by omega)]
    · simp only [if_neg h2]
      simp
      rw [if_pos (by omega)]
  · rw [if_neg h1]
    have : ¬ n ≤ 32768 := by omega
    simp [this]

/-! ## `Split` on dotted addresses -/

theorem Split_no_dot : ∀ (xs : GoString), (∀ c ∈ xs, c ≠ '.') → Split xs = [xs] := by
  intro xs
  induction xs with
  | nil => intro _; rfl
  | cons x xs ih =>
    intro h
    have hx : x ≠ '.' := h x (by simp)
    have hxs := ih (fun c hc => h c (by simp [hc]))
    simp [Split, hxs, hx]

theorem Split_append_dot : ∀ (xs ys : GoString), (∀ c ∈ xs, c ≠ '.') →
    Split (xs ++ '.' :: ys) = xs :: Split ys := by
  intro xs
  induction xs with
  | nil =>
    intro ys _
    simp only [List.nil_append, Split]
    cases h : Split ys with
    | nil => 
      exfalso
      cases ys with
      | nil => simp [Split] at h
      | cons y ys => 
        simp only [Split] at h
        split at h
        · simp at h
        · split at h <;> simp at h
    | cons s r => simp
  | cons x xs ih =>
    intro ys h
    have hx : x ≠ '.' := h x (by simp)
    have hxs := ih ys (fun c hc => h c (by simp [hc]))
    simp [Split, hxs, hx]

theorem decimal_no_dot (n : Nat) : ∀ c ∈ decimal n, c ≠ '.' := by
  intro c hc h
  have := decimal_digits n c hc
  subst h
  simp at this

/-! ## Resolution of data-block bit addresses -/

theorem dbBranch_dbx (l : Locals) (node : NodeSettings) (n b : Nat) (bit : GoString)
    (hbit : ∀ c ∈ bit, c ≠ '.') (ha : node.Address = dbxAddress n b bit) :
    addressSwitch l node =
      .ok (if (ParseInt bit 16).1 > 7 ∨ (ParseInt bit 16).1 < 0 then
          ({ l with s7_dbIndex := clamp16 b, s7_dbNo := clamp16 n, s7_area := s7areadb,
                    s7_size := 1 },
            some ["Db Read Bit is invalid for address ".toList, node.Address])
        else
          ({ l with s7_dbIndex := clamp16 b, s7_dbNo := clamp16 n, s7_area := s7areadb,
                    s7_size := 1, s7_bit := (ParseInt bit 16).1 * 16 }, none)) := by
  have hs : Split node.Address = ['D' :: 'B' :: decimal n, 'D' :: 'B' :: 'X' :: decimal b, bit] := by
    rw [ha, dbxAddress]
    have h1 : ∀ c ∈ 'D' :: 'B' :: decimal n, c ≠ '.' := by
      intro c hc
      simp only [List.mem_cons] at hc
      rcases hc with rfl | rfl | hc
      · decide
      · decide
      · exact decimal_no_dot n c hc
    have h2 : ∀ c ∈ 'D' :: 'B' :: 'X' :: decimal b, c ≠ '.' := by
      intro c hc
      simp only [List.mem_cons] at hc
      rcases hc with rfl | rfl | rfl | hc
      · decide
      · decide
      · decide
      · exact decimal_no_dot b c hc
    have e1 := Split_append_dot ('D' :: 'B' :: decimal n) ('D' :: 'B' :: 'X' :: (decimal b ++ '.' :: bit)) h1
    have e2 := Split_append_dot ('D' :: 'B' :: 'X' :: decimal b) bit h2
    simp only [List.cons_append] at e1 e2
    rw [e1, e2, Split_no_dot bit hbit]
  have h2 : slice node.Address 0 2 = .ok ['D', 'B'] := by
    rw [ha, dbxAddress]
    simp [slice]
  have hnot : ¬ (['D', 'B'] ∈ shorthandAreas) := by decide
  simp only [addressSwitch, h2, hnot, if_false, if_true, dbBranch, hs]
  simp [index, sliceFrom, slice, ParseInt_decimal, clamp16]
  split <;> simp_all

/-! ## What address resolution leaves untouched, and the sizes it sets -/

theorem shorthandBranch_frame (l l1 : Locals) (node : NodeSettings) (A : GoString)
    (r : Option (List GoString)) (h : shorthandBranch l node A = .ok (l1, r)) :
    l1.frame = l.frame := by
  simp only [shorthandBranch] at h
  repeat' split at h
  all_goals (cases h; try rfl)

theorem dbBranch_frame (l l1 : Locals) (node : NodeSettings)
    (r : Option (List GoString)) (h : dbBranch l node = .ok (l1, r)) :
    l1.frame = l.frame := by
  simp only [dbBranch] at h
  repeat' split at h
  all_goals (cases h; try rfl)

theorem genericBranch_frame (l l1 : Locals) (node : NodeSettings)
    (r : Option (List GoString)) (h : genericBranch l node = .ok (l1, r)) :
    l1.frame = l.frame := by
  simp only [genericBranch] at h
  repeat' split at h
  all_goals (cases h; try rfl)

theorem addressSwitch_frame (l l1 : Locals) (node : NodeSettings) (r : Option (List GoString))
    (h : addressSwitch l node = .ok (l1, r)) : l1.frame = l.frame := by
  simp only [addressSwitch] at h
  split at h
  · cases h
  · split at h
    · exact shorthandBranch_frame _ _ _ _ _ h
    · split at h
      · exact dbBranch_frame _ _ _ _ h
      · exact genericBranch_frame _ _ _ _ h



theorem shorthandAreas_size (A : GoString) (hA : A ∈ shorthandAreas) :
    slice A 1 2 = .ok ['B'] ∨ slice A 1 2 = .ok ['W'] ∨ slice A 1 2 = .ok ['D'] := by
  simp only [shorthandAreas, List.mem_cons, List.mem_singleton, List.not_mem_nil, or_false] at hA
  rcases hA with rfl | rfl | rfl | rfl | rfl | rfl | rfl | rfl | rfl | rfl | rfl | rfl | rfl | rfl | rfl <;>
    simp [slice]

theorem shorthandBranch_size (l l1 : Locals) (node : NodeSettings) (A : GoString)
    (hA : A ∈ shorthandAreas) (r : Option (List GoString))
    (h : shorthandBranch l node A = .ok (l1, r)) :
    l1.s7_size = 1 ∨ l1.s7_size = 2 ∨ l1.s7_size = 4 := by
  have hs := shorthandAreas_size A hA
  simp only [shorthandBranch] at h
  repeat' split at h
  all_goals (cases h <;> simp_all)

theorem dbBranch_size (l l1 : Locals) (node : NodeSettings)
    (h : dbBranch l node = .ok (l1, none)) :
    l1.s7_size = 1 ∨ l1.s7_size = 2 ∨ l1.s7_size = 4 := by
  simp only [dbBranch] at h
  repeat' split at h
  all_goals (cases h; try simp)

theorem genericBranch_size (l l1 : Locals) (node : NodeSettings)
    (h : genericBranch l node = .ok (l1, none)) :
    l1.s7_size = 1 ∨ l1.s7_size = 2 ∨ l1.s7_size = 4 := by
  simp only [genericBranch] at h
  repeat' split at h
  all_goals (cases h; try simp)

theorem addressSwitch_size (l l1 : Locals) (node : NodeSettings)
    (h : addressSwitch l node = .ok (l1, none)) :
    l1.s7_size = 1 ∨ l1.s7_size = 2 ∨ l1.s7_size = 4 := by
  simp only [addressSwitch] at h
  split at h
  · cases h
  · split at h
    · exact shorthandBranch_size _ _ _ _ (by assumption) _ h
    · split at h
      · exact dbBranch_size _ _ _ h
      · exact genericBranch_size _ _ _ h

theorem typeSwitch_known (l : Locals) (node : NodeSettings) (w : Int)
    (hw : naturalWidth node.Type_ = some w) :
    typeSwitch l node = some (typeTag l.s7_bit node.Type_) := by
  simp only [naturalWidth] at hw
  simp only [typeSwitch, typeTag]
  repeat' split
  all_goals first
    | rfl
    | (exfalso; simp_all)

theorem mkItem_ok (l : Locals) (hpos : 0 ≤ l.pos ∧ l.pos < 18) (hbuf : l.buf2.length = 72) :
    mkItem l = .ok { Area := l.s7_area, WordLen := 0x02, DBNumber := l.s7_dbNo,
                     Start := l.s7_dbIndex, Amount := l.s7_size, Data := (l.pos * 4).toNat,
                     Error := [] } := by
  unfold mkItem
  rw [if_neg (by rw [hbuf]; push_cast; omega), if_neg (by omega)]

/-! ## Resolution of generic bit addresses and out-of-range bits -/

theorem decimal_cons (n : Nat) : ∃ d ds, decimal n = d :: ds ∧ 48 ≤ d.toNat ∧ d.toNat ≤ 57 := by
  have hne := decimal_ne_nil n
  have hd := decimal_digits n
  cases hs : decimal n with
  | nil => contradiction
  | cons c cs => exact ⟨c, cs, rfl, hd c (by rw [hs]; simp)⟩

theorem addressSwitch_generic (l : Locals) (node : NodeSettings) (c : Char) (b : Nat)
    (bit : GoString) (hc : c ∈ genericAreas) (hbit : ∀ x ∈ bit, x ≠ '.')
    (ha : node.Address = genericAddress c b bit) :
    addressSwitch l node =
      .ok (if (ParseInt bit 16).1 > 7 ∨ (ParseInt bit 16).1 < 0 then
          ({ l with s7_area := genericArea c },
            some ["Db Read Bit is invalid for address ".toList, node.Address])
        else
          ({ l with s7_area := genericArea c, s7_dbIndex := clamp16 b, s7_dbNo := 0,
                    s7_size := 1, s7_bit := (ParseInt bit 16).1 * 16 }, none)) := by
  obtain ⟨d, ds, hd, hlo, hhi⟩ := decimal_cons b
  have hcdot : c ≠ '.' := by
    intro h; subst h; simp [genericAreas] at hc
  have hs : Split node.Address = [c :: decimal b, bit] := by
    rw [ha, genericAddress]
    have h1 : ∀ x ∈ c :: decimal b, x ≠ '.' := by
      intro x hx
      simp only [List.mem_cons] at hx
      rcases hx with rfl | hx
      · exact hcdot
      · exact decimal_no_dot b x hx
    have e1 := Split_append_dot (c :: decimal b) bit h1
    simp only [List.cons_append] at e1
    rw [e1, Split_no_dot bit hbit]
  have h2 : slice node.Address 0 2 = .ok [c, d] := by
    rw [ha, genericAddress, hd]
    simp [slice]
  have h1 : slice node.Address 0 1 = .ok [c] := by
    rw [ha, genericAddress]
    simp [slice]
  have hdB : d ≠ 'B' := by intro h; subst h; simp at hhi
  have hdW : d ≠ 'W' := by intro h; subst h; simp at hhi
  have hdD : d ≠ 'D' := by intro h; subst h; simp at hhi
  have hnot : ¬ ([c, d] ∈ shorthandAreas) := by
    simp [shorthandAreas, hdB, hdW, hdD]
  have hnot2 : ¬ ([c, d] = ['D', 'B']) := by simp [hdB]
  simp only [addressSwitch, h2, hnot, hnot2, if_false, genericBranch, h1, hs]
  simp only [genericAreas, List.mem_cons, List.mem_singleton, List.not_mem_nil, or_false] at hc
  rcases hc with rfl | rfl | rfl | rfl | rfl <;>
    (simp [index, sliceFrom, ParseInt_decimal, clamp16, genericArea]
     split <;> simp_all)

theorem decimalInt_no_dot (v : Int) : ∀ x ∈ decimalInt v, x ≠ '.' := by
  intro x hx
  unfold decimalInt at hx
  split at hx
  · simp only [List.mem_cons] at hx
    rcases hx with rfl | hx
    · decide
    · exact decimal_no_dot _ x hx
  · exact decimal_no_dot _ x hx

theorem ParseInt_decimalInt_out (v : Int) (hv : v < 0 ∨ 7 < v) :
    (ParseInt (decimalInt v) 16).1 > 7 ∨ (ParseInt (decimalInt v) 16).1 < 0 := by
  unfold decimalInt
  by_cases h : v < 0
  · rw [if_pos h, ParseInt_neg_decimal]
    right
    split <;> omega
  · rw [if_neg h, ParseInt_decimal]
    left
    split <;> omega

/-! ## Claims C1 to C6: batching, tick counting and emission -/

set_option maxRecDepth 100000 in
/-- Claim C1, evaluated on a group of 40 resolvable points with a transport that always
succeeds: `Gather` calls the transport twice, with points 0..17 and 18..35; points
36..39 are never read. -/
theorem gather_group_40_reads_only_36 :
    (eventsOf (Gather (readyConfig (wordGroup "m".toList 40)) echoTransport ())).map
        (fun t => (readBatches t).map (fun b => b.map (fun it => it.Start)))
      = some [(List.range 18).map (fun i => ((2 * i : Nat) : Int)),
              (List.range 18).map (fun i => ((2 * (i + 18) : Nat) : Int))] := by
  decide

set_option maxRecDepth 100000 in
/-- Claim C2, evaluated on a group of 54 resolvable points: the third batch is decoded
with start offset 18 instead of 36, so the values of points 36..53 are stored under the
field names of points 18..35 and no field `f36`..`f53` exists. -/
theorem gather_group_54_third_batch_offset :
    (eventsOf (Gather (readyConfig (wordGroup "m".toList 54)) echoTransport ())).map emitted
      = some [("m".toList, (List.range 36).map (fun i =>
          ('f' :: decimal i, Value.uint16 (if i < 18 then 2 * i else 2 * (i + 18)))))] := by
  decide

set_option maxRecDepth 100000 in
/-- Claim C3, evaluated with `TicksPerInterval = 5` and `TickCount = 0`: of the first
twelve invocations of `Gather` the 6th and the 12th call the transport, the 5th and the
10th do not. -/
theorem gather_five_ticks_reads_every_sixth :
    fiveTickConfig.TicksPerInterval = 5 ∧
    (gatherRuns echoTransport 12 fiveTickConfig ()).map
        (fun r => r.map (fun t => (readBatches t).length))
      = [some 0, some 0, some 0, some 0, some 0, some 1,
         some 0, some 0, some 0, some 0, some 0, some 1] := by
  decide

/-- Claim C4, evaluated on the group `DB1`/word, `DB1.DBW0`/word: the first node is
logged and skipped, the second is resolved but never read, and the record is emitted
with an empty field map. -/
theorem gather_malformed_sibling_not_read :
    eventsOf (Gather (readyConfig [badNode "m".toList, wordNode "m".toList 0]) echoTransport ())
      = some [Event.logError ["Db Area read variable should not be empty".toList],
              Event.addFields "m".toList []] := by
  decide

set_option maxRecDepth 100000 in
/-- Claim C5, evaluated on a group of 19 nodes, the first with address `DB1`, then the
18 resolvable points 1..18: the value of point `i + 1` is stored under the name of
node `i`, so the name `bad` of the node that failed resolution receives the value 2 of
point 1 and the name `f18` receives nothing. -/
theorem gather_failed_node_shifts_names :
    (eventsOf (Gather (readyConfig (badNode "m".toList ::
        (List.range 18).map (fun i => wordNode "m".toList (i + 1)))) echoTransport ())).map emitted
      = some [("m".toList, (List.range 18).map (fun i =>
          (if i = 0 then "bad".toList else 'f' :: decimal i, Value.uint16 (2 * (i + 1)))))] := by
  decide

/-- Claim C6, evaluated on a cycle with a group `x` whose only node fails resolution
and a group `m` of one resolvable point: `AddFields` is called for `x` too, with an
empty field map. -/
theorem gather_emits_empty_group :
    (eventsOf (Gather (readyConfig [badNode "x".toList, wordNode "m".toList 3])
        echoTransport ())).map emitted
      = some [("x".toList, []), ("m".toList, [("f3".toList, Value.uint16 6)])] := by
  decide

/-! ## Claim C7: the declared width is not compared with the address size -/

/-- Claim C7 as stated fails: `DB1.DBW0` fixes size 2 and `real` has natural width 4, yet
the node resolves to a read item with `Amount = 2` and the decode tag `s7real`. -/
theorem resolve_dbw_declared_real_accepted :
    naturalWidth (nodeAt "DB1.DBW0" "real").Type_ = some 4 ∧
    resolvedOf (resolveNode Locals.init (nodeAt "DB1.DBW0" "real")) =
      some ([{ Area := 0x84, WordLen := 0x02, DBNumber := 1, Start := 0, Amount := 2,
               Data := 0, Error := [] }], [s7real]) := by
  decide

/-- Claim C7, amended: when the address switch accepts the address of a node (leaving
the locals `l1`) and the declared type is one of the ten known types, of natural width
`w` different from the size the address fixed, the node is still resolved: the size is
1, 2 or 4, one item is appended whose `Amount` is that size, and one decode tag is
appended, the tag of the declared type. -/
theorem resolve_ignores_declared_width (l l1 : Locals) (node : NodeSettings) (w : Int)
    (hpos : 0 ≤ l.pos ∧ l.pos < 18) (hbuf : l.buf2.length = 72)
    (haddr : addressSwitch l node = .ok (l1, none))
    (hw : naturalWidth node.Type_ = some w) (_hne : w ≠ l1.s7_size) :
    (l1.s7_size = 1 ∨ l1.s7_size = 2 ∨ l1.s7_size = 4) ∧
    resolvedOf (resolveNode l node) =
      some (l.items ++ [{ Area := l1.s7_area, WordLen := 0x02, DBNumber := l1.s7_dbNo,
                          Start := l1.s7_dbIndex, Amount := l1.s7_size,
                          Data := (l.pos * 4).toNat, Error := [] }],
            l.dtype ++ [typeTag l1.s7_bit node.Type_]) := by
  have hf := addressSwitch_frame l l1 node none haddr
  simp only [Locals.frame, Prod.mk.injEq] at hf
  obtain ⟨h1, h2, h3, h4, h5, h6⟩ := hf
  refine ⟨addressSwitch_size l l1 node haddr, ?_⟩
  have hm := mkItem_ok l1 (by rw [h1]; exact hpos) (by rw [h3]; exact hbuf)
  simp only [resolveNode, haddr, typeSwitch_known l1 node w hw, hm, resolvedOf, h1, h4, h5]

/-- Claim C7, amended, at `EB4` declared `dint` (size 1, natural width 4). -/
theorem resolve_ignores_declared_width_witness :
    resolvedOf (resolveNode Locals.init (nodeAt "EB4" "dint")) =
      some ([{ Area := 0x81, WordLen := 0x02, DBNumber := 0, Start := 4, Amount := 1,
               Data := 0, Error := [] }], [s7dint]) :=
  (resolve_ignores_declared_width Locals.init
    { Locals.init with s7_dbIndex := 4, s7_dbNo := 0, s7_area := s7areape, s7_size := 1 }
    (nodeAt "EB4" "dint") 4 (by decide) (by decide) rfl (by decide) (by decide)).2

/-! ## Claim C8: data-block bit addresses -/

/-- Claim C8 as stated fails for block numbers above 32767: `DB40000.DBX0.0` declared
bool resolves to an item with `DBNumber = 32767`, not 40000. -/
theorem resolve_dbx_block_40000_clamped :
    (nodeAt "DB40000.DBX0.0" "bool").Address = dbxAddress 40000 0 (decimal 0) ∧
    resolvedOf (resolveNode Locals.init (nodeAt "DB40000.DBX0.0" "bool")) =
      some ([{ Area := 0x84, WordLen := 0x02, DBNumber := 32767, Start := 0, Amount := 1,
               Data := 0, Error := [] }], [0]) := by
  decide

/-- Claim C8, amended to block numbers and byte offsets up to 32767: for `n`, `b` in that
range and `bit` in 0..7 the address `DB<n>.DBX<b>.<bit>` declared bool resolves to one
more item with area 0x84, `DBNumber = n`, `Start = b`, `Amount = 1`, and one more decode
tag `16 * bit`, which selects the bool case (`tag & 0x0F = 0`) and gives back the bit
offset (`tag >> 4 = bit`). -/
theorem resolve_dbx_bool (l : Locals) (node : NodeSettings) (n b bit : Nat)
    (hn : n ≤ 32767) (hb : b ≤ 32767) (hbit : bit ≤ 7)
    (hpos : 0 ≤ l.pos ∧ l.pos < 18) (hbuf : l.buf2.length = 72)
    (ha : node.Address = dbxAddress n b (decimal bit)) (ht : node.Type_ = "bool".toList) :
    resolvedOf (resolveNode l node) =
      some (l.items ++ [{ Area := 0x84, WordLen := 0x02, DBNumber := n, Start := b,
                          Amount := 1, Data := (l.pos * 4).toNat, Error := [] }],
            l.dtype ++ [(bit : Int) * 16]) ∧
    ((bit : Int) * 16) % 16 = s7bool ∧ ((bit : Int) * 16) / 16 = bit := by
  have hsw := dbBranch_dbx l node n b (decimal bit) (decimal_no_dot bit) ha
  have hp : (ParseInt (decimal bit) 16).1 = (bit : Int) := by
    rw [ParseInt_decimal, if_pos (by omega)]
  rw [hp, if_neg (by omega)] at hsw
  have hcn : clamp16 n = n := by simp [clamp16, hn]
  have hcb : clamp16 b = b := by simp [clamp16, hb]
  rw [hcn, hcb] at hsw
  refine ⟨?_, ?_, ?_⟩
  · have hm := mkItem_ok
      { l with s7_dbIndex := (b : Int), s7_dbNo := (n : Int), s7_area := s7areadb,
               s7_size := 1, s7_bit := (bit : Int) * 16 } hpos hbuf
    simp only [resolveNode, hsw, typeSwitch, ht, if_true, hm, resolvedOf]
    rfl
  · simp [s7bool]
  · omega

/-- Claim C8, amended, at `DB1.DBX10.3`. -/
theorem resolve_dbx_bool_witness :
    resolvedOf (resolveNode Locals.init (nodeAt "DB1.DBX10.3" "bool")) =
      some ([{ Area := 0x84, WordLen := 0x02, DBNumber := 1, Start := 10, Amount := 1,
               Data := 0, Error := [] }], [48]) ∧
    (48 : Int) % 16 = s7bool ∧ (48 : Int) / 16 = 3 :=
  resolve_dbx_bool Locals.init (nodeAt "DB1.DBX10.3" "bool") 1 10 3 (by decide) (by decide)
    (by decide) (by decide) (by decide) (by decide) (by decide)

/-! ## Claim C9: bit values outside 0..7 -/

/-- Claim C9: for every integer `v` outside 0..7 written in decimal, a node of the group
whose address is `DB<n>.DBX<b>.<v>` or `<c><b>.<v>` with `c` one of `I`, `E`, `0`, `A`,
`M` is given up: the body of the node loop logs one error, calls no transport, and
leaves `items` and `dtype` as they were. -/
theorem nodeBody_rejects_bit_out_of_range {σ : Type} (tr : Transport σ) (metric : Metrics)
    (w : World σ) (l : Locals) (node : NodeSettings) (n b : Nat) (v : Int)
    (hm : node.MetricName = metric.Name) (hv : v < 0 ∨ 7 < v)
    (ha : node.Address = dbxAddress n b (decimalInt v) ∨
          ∃ c ∈ genericAreas, node.Address = genericAddress c b (decimalInt v)) :
    ∃ l1, nodeBody tr metric w l node =
        .ok (w.log ["Db Read Bit is invalid for address ".toList, node.Address], l1) ∧
      l1.items = l.items ∧ l1.dtype = l.dtype := by
  have hout := ParseInt_decimalInt_out v hv
  rcases ha with ha | ⟨c, hc, ha⟩
  · have hsw := dbBranch_dbx l node n b (decimalInt v) (decimalInt_no_dot v) ha
    rw [if_pos hout] at hsw
    exact ⟨{ l with s7_dbIndex := clamp16 b, s7_dbNo := clamp16 n, s7_area := s7areadb,
                    s7_size := 1 },
      by simp only [nodeBody, hm, if_true, resolveNode, hsw], rfl, rfl⟩
  · have hsw := addressSwitch_generic l node c b (decimalInt v) hc (decimalInt_no_dot v) ha
    rw [if_pos hout] at hsw
    exact ⟨{ l with s7_area := genericArea c },
      by simp only [nodeBody, hm, if_true, resolveNode, hsw], rfl, rfl⟩

/-- Claim C9 at `DB1.DBX10.8` and at `M0.-1`. -/
theorem nodeBody_rejects_bit_out_of_range_witness :
    (∃ l1, nodeBody echoTransport { Name := "m".toList, Count := 1, Nodes := [] }
        { tstate := (), trace := [] } Locals.init (nodeAt "DB1.DBX10.8" "bool") =
          .ok (World.log { tstate := (), trace := [] }
            ["Db Read Bit is invalid for address ".toList, "DB1.DBX10.8".toList], l1) ∧
        l1.items = [] ∧ l1.dtype = []) ∧
    (∃ l1, nodeBody echoTransport { Name := "m".toList, Count := 1, Nodes := [] }
        { tstate := (), trace := [] } Locals.init (nodeAt "M0.-1" "bool") =
          .ok (World.log { tstate := (), trace := [] }
            ["Db Read Bit is invalid for address ".toList, "M0.-1".toList], l1) ∧
        l1.items = [] ∧ l1.dtype = []) :=
  ⟨nodeBody_rejects_bit_out_of_range echoTransport _ _ Locals.init
      (nodeAt "DB1.DBX10.8" "bool") 1 10 8 (by decide) (by decide) (Or.inl (by decide)),
   nodeBody_rejects_bit_out_of_range echoTransport _ _ Locals.init
      (nodeAt "M0.-1" "bool") 0 0 (-1) (by decide) (by decide)
      (Or.inr ⟨'M', by decide, by decide⟩)⟩

/-! ## Claim C10: addresses that are too short -/

/-- Claim C10, evaluated on the four addresses it names, each declared `bool`: `Gather`
ends in a panic in every case (index out of range for `DB1.DBX10` and `I0`, slice
bounds out of range for `DB1.X` and `M`). -/
theorem gather_panics_on_short_addresses :
    panicOf (Gather (readyConfig [nodeAt "DB1.DBX10" "bool"]) echoTransport ())
      = some Panic.indexOutOfRange ∧
    panicOf (Gather (readyConfig [nodeAt "I0" "bool"]) echoTransport ())
      = some Panic.indexOutOfRange ∧
    panicOf (Gather (readyConfig [nodeAt "DB1.X" "bool"]) echoTransport ())
      = some Panic.sliceBounds ∧
    panicOf (Gather (readyConfig [nodeAt "M" "bool"]) echoTransport ())
      = some Panic.sliceBounds := by
  decide

/-! ## Decoding a slot -/

theorem toSigned_16 (v : Nat) (h : v < 65536) : toSigned 16 v = twosComplement 16 v := by
  unfold toSigned twosComplement
  norm_num
  split <;> omega

theorem toSigned_32 (v : Nat) (h : v < 4294967296) : toSigned 32 v = twosComplement 32 v := by
  unfold toSigned twosComplement
  norm_num
  split <;> omega

theorem readBE_one (buf : List Nat) (off b0 : Nat) (h0 : buf.getD off 0 = b0) (hb : b0 < 256) :
    readBE buf off 1 = b0 := by
  subst h0
  simp only [readBE, Nat.add_zero, Nat.zero_mul, Nat.zero_add, Nat.mod_eq_of_lt hb]

theorem readBE_two (buf : List Nat) (off b0 b1 : Nat) (h0 : buf.getD off 0 = b0)
    (h1 : buf.getD (off + 1) 0 = b1) (hb0 : b0 < 256) (hb1 : b1 < 256) :
    readBE buf off 2 = 256 * b0 + b1 := by
  subst h0 h1
  simp only [readBE, Nat.add_zero, Nat.zero_mul, Nat.zero_add, Nat.mod_eq_of_lt hb0,
    Nat.mod_eq_of_lt hb1]
  omega

theorem readBE_four (buf : List Nat) (off b0 b1 b2 b3 : Nat) (h0 : buf.getD off 0 = b0)
    (h1 : buf.getD (off + 1) 0 = b1) (h2 : buf.getD (off + 2) 0 = b2)
    (h3 : buf.getD (off + 3) 0 = b3)
    (hb0 : b0 < 256) (hb1 : b1 < 256) (hb2 : b2 < 256) (hb3 : b3 < 256) :
    readBE buf off 4 = 2 ^ 24 * b0 + 2 ^ 16 * b1 + 2 ^ 8 * b2 + b3 := by
  subst h0 h1 h2 h3
  simp only [readBE, Nat.add_zero, Nat.zero_mul, Nat.zero_add, Nat.mod_eq_of_lt hb0,
    Nat.mod_eq_of_lt hb1, Nat.mod_eq_of_lt hb2, Nat.mod_eq_of_lt hb3]
  omega

theorem mask_entry (k : Nat) (hk : k ≤ 7) : index mask (k : Int) = .ok (1 <<< k) := by
  interval_cases k <;> rfl

theorem decodeItem_bool (buf : List Nat) (i k v : Nat) (hk : k ≤ 7)
    (hv : buf.getD (i * 4) 0 = v) (hb : v < 256) :
    decodeItem buf ((k : Int) * 16) i = .ok (some (Value.bool (Nat.land v (1 <<< k) != 0))) := by
  have h1 : ((k : Int) * 16) % 16 = s7bool := by simp [s7bool]
  have h2 : ((k : Int) * 16) / 16 = (k : Int) := by omega
  simp only [decodeItem, h1, h2, if_true, mask_entry k hk, readBE_one buf (i * 4) v hv hb]

theorem resolve_bit_address_bool (l : Locals) (node : NodeSettings) (n b k : Nat)
    (hk : k ≤ 7) (hpos : 0 ≤ l.pos ∧ l.pos < 18) (hbuf : l.buf2.length = 72)
    (ht : node.Type_ = "bool".toList)
    (ha : node.Address = dbxAddress n b (decimal k) ∨
          ∃ c ∈ genericAreas, node.Address = genericAddress c b (decimal k)) :
    ∃ l1, resolveNode l node = .ok (l1, none) ∧ l1.dtype = l.dtype ++ [(k : Int) * 16] ∧
      l1.items.length = l.items.length + 1 := by
  have hp : (ParseInt (decimal k) 16).1 = (k : Int) := by
    rw [ParseInt_decimal, if_pos (by omega)]
  rcases ha with ha | ⟨c, hc, ha⟩
  · have hsw := dbBranch_dbx l node n b (decimal k) (decimal_no_dot k) ha
    rw [hp, if_neg (by omega)] at hsw
    have hm := mkItem_ok
      { l with s7_dbIndex := clamp16 b, s7_dbNo := clamp16 n, s7_area := s7areadb,
               s7_size := 1, s7_bit := (k : Int) * 16 } hpos hbuf
    refine ⟨_, by simp only [resolveNode, hsw, typeSwitch, ht, if_true, hm]; rfl, rfl, by simp⟩
  · have hsw := addressSwitch_generic l node c b (decimal k) hc (decimal_no_dot k) ha
    rw [hp, if_neg (by omega)] at hsw
    have hm := mkItem_ok
      { l with s7_area := genericArea c, s7_dbIndex := clamp16 b, s7_dbNo := 0,
               s7_size := 1, s7_bit := (k : Int) * 16 } hpos hbuf
    refine ⟨_, by simp only [resolveNode, hsw, typeSwitch, ht, if_true, hm]; rfl, rfl, by simp⟩

/-! ## Resolution of data-block byte, word and dword addresses and of shorthands -/

theorem addressSwitch_db (l : Locals) (node : NodeSettings) (n b : Nat) (code : GoString)
    (hlen : code.length = 3) (hdot : ∀ x ∈ code, x ≠ '.') (hx : code ≠ ['D', 'B', 'X'])
    (ha : node.Address = dbAddress n code b) :
    addressSwitch l node =
      .ok (match fieldCodeSize code with
        | some sz =>
          ({ l with s7_dbIndex := clamp16 b, s7_dbNo := clamp16 n, s7_area := s7areadb,
                    s7_size := sz }, none)
        | none =>
          ({ l with s7_dbIndex := clamp16 b, s7_dbNo := clamp16 n, s7_area := s7areadb },
            some ["Error when parsing dbtype for address ".toList, node.Address])) := by
  obtain ⟨x, y, z, rfl⟩ : ∃ x y z, code = [x, y, z] := by
    match code, hlen with
    | [x, y, z], _ => exact ⟨x, y, z, rfl⟩
  have hxd : x ≠ '.' := hdot x (by simp)
  have hyd : y ≠ '.' := hdot y (by simp)
  have hzd : z ≠ '.' := hdot z (by simp)
  have hs : Split node.Address = ['D' :: 'B' :: decimal n, x :: y :: z :: decimal b] := by
    rw [ha, dbAddress]
    have h1 : ∀ c ∈ 'D' :: 'B' :: decimal n, c ≠ '.' := by
      intro c hc
      simp only [List.mem_cons] at hc
      rcases hc with rfl | rfl | hc
      · decide
      · decide
      · exact decimal_no_dot n c hc
    have h2 : ∀ c ∈ x :: y :: z :: decimal b, c ≠ '.' := by
      intro c hc
      simp only [List.mem_cons] at hc
      rcases hc with rfl | rfl | rfl | hc
      · exact hxd
      · exact hyd
      · exact hzd
      · exact decimal_no_dot b c hc
    have e1 := Split_append_dot ('D' :: 'B' :: decimal n) (x :: y :: z :: decimal b) h1
    simp only [List.cons_append] at e1
    simp only [List.cons_append, List.nil_append]
    rw [e1, Split_no_dot _ h2]
  have h2 : slice node.Address 0 2 = .ok ['D', 'B'] := by
    rw [ha, dbAddress]
    simp [slice]
  have hnot : ¬ (['D', 'B'] ∈ shorthandAreas) := by decide
  simp only [addressSwitch, h2, hnot, if_false, if_true, dbBranch, hs]
  simp only [fieldCodeSize]
  simp [index, sliceFrom, slice, ParseInt_decimal, clamp16]
  split_ifs <;> simp_all

theorem addressSwitch_shorthand (l : Locals) (node : NodeSettings) (c1 c2 : Char) (n : Nat)
    (hA : [c1, c2] ∈ shorthandAreas) (ha : node.Address = shorthandAddress c1 c2 n) :
    addressSwitch l node =
      .ok ({ l with
              s7_area := (match shorthandArea c1 with
                | some a => a
                | none => l.s7_area),
              s7_size := (match shorthandSize c2 with
                | some sz => sz
                | none => l.s7_size),
              s7_dbIndex := clamp16 n, s7_dbNo := 0 }, none) := by
  have h2 : slice node.Address 0 2 = .ok [c1, c2] := by
    rw [ha, shorthandAddress]
    simp [slice]
  have h1 : slice node.Address 0 1 = .ok [c1] := by
    rw [ha, shorthandAddress]
    simp [slice]
  have h3 : sliceFrom node.Address 2 = .ok (decimal n) := by
    rw [ha, shorthandAddress]
    simp [sliceFrom]
  have h4 : slice [c1, c2] 1 2 = .ok [c2] := by simp [slice]
  simp only [addressSwitch, h2, hA, if_true, shorthandBranch, h1, h3, h4, ParseInt_decimal,
    shorthandArea, shorthandSize, clamp16]
  simp only [shorthandAreas, List.mem_cons, List.mem_singleton, List.not_mem_nil, or_false,
    List.cons.injEq, and_true] at hA
  rcases hA with ⟨rfl, rfl⟩ | ⟨rfl, rfl⟩ | ⟨rfl, rfl⟩ | ⟨rfl, rfl⟩ | ⟨rfl, rfl⟩ | ⟨rfl, rfl⟩ |
    ⟨rfl, rfl⟩ | ⟨rfl, rfl⟩ | ⟨rfl, rfl⟩ | ⟨rfl, rfl⟩ | ⟨rfl, rfl⟩ | ⟨rfl, rfl⟩ | ⟨rfl, rfl⟩ |
    ⟨rfl, rfl⟩ | ⟨rfl, rfl⟩ <;> simp [s7areape, s7areapa]

theorem addressSwitch_fallback_other (l : Locals) (node : NodeSettings) (c d : Char)
    (rest : GoString) (ha : node.Address = c :: d :: rest)
    (hs : [c, d] ∉ shorthandAreas) (hdb : [c, d] ≠ ['D', 'B']) (hc : c ∉ genericAreas) :
    addressSwitch l node =
      .ok (l, some ["Error when parsing dbtype for address ".toList, node.Address]) := by
  have h2 : slice node.Address 0 2 = .ok [c, d] := by
    rw [ha]; simp [slice]
  have h1 : slice node.Address 0 1 = .ok [c] := by
    rw [ha]; simp [slice]
  simp only [genericAreas, List.mem_cons, List.mem_singleton, List.not_mem_nil, or_false,
    not_or] at hc
  obtain ⟨hI, hE, h0, hA, hM⟩ := hc
  simp only [addressSwitch, h2, hs, hdb, if_false, genericBranch, h1]
  simp [hI, hE, h0, hA, hM]

theorem resolveNode_of_addressSwitch (l l1 : Locals) (node : NodeSettings) (w : Int)
    (hpos : 0 ≤ l.pos ∧ l.pos < 18) (hbuf : l.buf2.length = 72)
    (haddr : addressSwitch l node = .ok (l1, none))
    (hw : naturalWidth node.Type_ = some w) :
    resolveNode l node =
      .ok ({ l1 with
              dtype := l1.dtype ++ [typeTag l1.s7_bit node.Type_],
              items := l1.items ++
                [{ Area := l1.s7_area, WordLen := 0x02, DBNumber := l1.s7_dbNo,
                   Start := l1.s7_dbIndex, Amount := l1.s7_size,
                   Data := (l1.pos * 4).toNat, Error := [] }],
              pos := l1.pos + 1 }, none) := by
  have hf := addressSwitch_frame l l1 node none haddr
  simp only [Locals.frame, Prod.mk.injEq] at hf
  obtain ⟨h1, _, h3, _, _, _⟩ := hf
  have hm := mkItem_ok l1 (by rw [h1]; exact hpos) (by rw [h3]; exact hbuf)
  simp only [resolveNode, haddr, typeSwitch_known l1 node w hw, hm]

theorem nodeBody_of_rejected {σ : Type} (tr : Transport σ) (metric : Metrics) (w : World σ)
    (l l1 : Locals) (node : NodeSettings) (msg : List GoString)
    (hm : node.MetricName = metric.Name)
    (haddr : addressSwitch l node = .ok (l1, some msg)) :
    nodeBody tr metric w l node = .ok (w.log msg, l1) := by
  simp only [nodeBody, hm, if_true, resolveNode, haddr]

/-! ## Decode tags stay valid -/

theorem bitTag_of_parsed (v : Int) (h : ¬ (v > 7 ∨ v < 0)) : bitTag (v * 16) := by
  unfold bitTag
  omega

theorem shorthandBranch_bit (l l1 : Locals) (node : NodeSettings) (A : GoString)
    (r : Option (List GoString)) (h : shorthandBranch l node A = .ok (l1, r)) :
    l1.s7_bit = l.s7_bit := by
  simp only [shorthandBranch] at h
  repeat' split at h
  all_goals (cases h; try rfl)

theorem dbBranch_bit (l l1 : Locals) (node : NodeSettings)
    (r : Option (List GoString)) (h : dbBranch l node = .ok (l1, r)) (hb : bitTag l.s7_bit) :
    bitTag l1.s7_bit := by
  simp only [dbBranch] at h
  repeat' split at h
  all_goals (cases h <;> first | exact hb | exact bitTag_of_parsed _ (by assumption))

theorem genericBranch_bit (l l1 : Locals) (node : NodeSettings)
    (r : Option (List GoString)) (h : genericBranch l node = .ok (l1, r))
    (hb : bitTag l.s7_bit) : bitTag l1.s7_bit := by
  simp only [genericBranch] at h
  repeat' split at h
  all_goals (cases h <;> first | exact hb | exact bitTag_of_parsed _ (by assumption))

theorem addressSwitch_bit (l l1 : Locals) (node : NodeSettings) (r : Option (List GoString))
    (h : addressSwitch l node = .ok (l1, r)) (hb : bitTag l.s7_bit) : bitTag l1.s7_bit := by
  simp only [addressSwitch] at h
  split at h
  · cases h
  · split at h
    · rw [shorthandBranch_bit _ _ _ _ _ h]; exact hb
    · split at h
      · exact dbBranch_bit _ _ _ _ h hb
      · exact genericBranch_bit _ _ _ _ h hb

theorem typeSwitch_valid (l : Locals) (node : NodeSettings) (t : Int)
    (hb : bitTag l.s7_bit) (h : typeSwitch l node = some t) : validTag t := by
  simp only [typeSwitch] at h
  repeat' split at h
  all_goals (cases h <;> first | exact Or.inr hb | (left; decide))

theorem resolveNode_tagInv (l l1 : Locals) (node : NodeSettings) (r : Option (List GoString))
    (hinv : TagInv l) (h : resolveNode l node = .ok (l1, r)) : TagInv l1 := by
  simp only [resolveNode] at h
  split at h
  · cases h
  · rename_i l2 msg haddr
    cases h
    have hf := addressSwitch_frame l l1 node _ haddr
    simp only [Locals.frame, Prod.mk.injEq] at hf
    exact ⟨addressSwitch_bit l l1 node _ haddr hinv.1, by rw [hf.2.2.2.2.1]; exact hinv.2⟩
  · rename_i l2 haddr
    have hf := addressSwitch_frame l l2 node _ haddr
    simp only [Locals.frame, Prod.mk.injEq] at hf
    have hb2 := addressSwitch_bit l l2 node _ haddr hinv.1
    split at h
    · cases h
      exact ⟨hb2, by rw [hf.2.2.2.2.1]; exact hinv.2⟩
    · rename_i tag htag
      split at h
      · cases h
      · cases h
        refine ⟨hb2, ?_⟩
        intro t ht
        simp only [List.mem_append, List.mem_singleton] at ht
        rcases ht with ht | ht
        · rw [hf.2.2.2.2.1] at ht; exact hinv.2 t ht
        · subst ht; exact typeSwitch_valid l2 node _ hb2 htag

/-! ## Batches handed to the transport -/

theorem resolveNode_batch (l l1 : Locals) (node : NodeSettings) (r : Option (List GoString))
    (h : resolveNode l node = .ok (l1, r)) :
    (r ≠ none ∧ l1.pos = l.pos ∧ l1.items = l.items ∧ l1.offset = l.offset) ∨
    (r = none ∧ l1.pos = l.pos + 1 ∧ l1.items.length = l.items.length + 1 ∧
      l1.offset = l.offset) := by
  simp only [resolveNode] at h
  split at h
  · cases h
  · rename_i l2 msg haddr
    cases h
    have hf := addressSwitch_frame l l1 node _ haddr
    simp only [Locals.frame, Prod.mk.injEq] at hf
    exact Or.inl ⟨by simp, hf.1, hf.2.2.2.1, hf.2.1⟩
  · rename_i l2 haddr
    have hf := addressSwitch_frame l l2 node _ haddr
    simp only [Locals.frame, Prod.mk.injEq] at hf
    split at h
    · cases h
      exact Or.inl ⟨by simp, hf.1, hf.2.2.2.1, hf.2.1⟩
    · split at h
      · cases h
      · cases h
        exact Or.inr ⟨rfl, by simp [hf.1], by simp [hf.2.2.2.1], hf.2.1⟩

theorem TraceOK_append (t u : List Event) (ht : TraceOK t) (hu : TraceOK u) :
    TraceOK (t ++ u) := by
  intro items cnt hmem
  rcases List.mem_append.mp hmem with h | h
  · exact ht items cnt h
  · exact hu items cnt h

theorem TraceOK_log (args : List GoString) : TraceOK [Event.logError args] := by
  intro items cnt hmem
  simp at hmem

theorem TraceOK_addFields (name : GoString) (f : Fields) :
    TraceOK [Event.addFields name f] := by
  intro items cnt hmem
  simp at hmem

theorem flushCheck_batch {σ : Type} (tr : Transport σ) (metric : Metrics) (w w1 : World σ)
    (l l1 : Locals) (hpos : l.pos = (l.items.length : Int))
    (hlen : 1 ≤ l.items.length ∧ l.items.length ≤ 18) (ht : TraceOK w.trace)
    (h : flushCheck tr metric w l = .ok (w1, l1)) :
    BatchInv l1 ∧ TraceOK w1.trace := by
  have hread : TraceOK [Event.readMulti l.items l.pos] := by
    intro items cnt hmem
    simp only [List.mem_singleton, Event.readMulti.injEq] at hmem
    obtain ⟨rfl, rfl⟩ := hmem
    refine ⟨hlen.1, ?_, hpos⟩
    simp only [MaxItemsPerReq]
    omega
  simp only [flushCheck] at h
  split at h
  · split at h
    · cases h
      refine ⟨⟨by simp [BatchInv], by simp⟩, ?_⟩
      simp only [World.log]
      exact TraceOK_append _ _ (TraceOK_append _ _ ht hread) (TraceOK_log _)
    · split at h
      · cases h
      · cases h
        exact ⟨⟨by simp [BatchInv], by simp⟩, TraceOK_append _ _ ht hread⟩
  · rename_i hcond
    cases h
    refine ⟨⟨hpos, ?_⟩, ht⟩
    simp only [MaxItemsPerReq, not_or] at hcond
    have := hcond.1
    omega

theorem nodeBody_batch {σ : Type} (tr : Transport σ) (metric : Metrics) (w w1 : World σ)
    (l l1 : Locals) (node : NodeSettings) (hm : node.MetricName = metric.Name)
    (hinv : BatchInv l) (ht : TraceOK w.trace)
    (h : nodeBody tr metric w l node = .ok (w1, l1)) :
    BatchInv l1 ∧ TraceOK w1.trace := by
  simp only [nodeBody, hm, if_true] at h
  split at h
  · cases h
  · rename_i l2 msg hres
    cases h
    rcases resolveNode_batch l l1 node _ hres with ⟨_, hp, hi, _⟩ | ⟨hr, _⟩
    · refine ⟨⟨by rw [hp, hi]; exact hinv.1, by rw [hi]; exact hinv.2⟩, ?_⟩
      exact TraceOK_append _ _ ht (TraceOK_log _)
    · cases hr
  · rename_i l2 hres
    rcases resolveNode_batch l l2 node _ hres with ⟨hr, _⟩ | ⟨_, hp, hi, _⟩
    · exact absurd rfl hr
    · have h1 := hinv.1
      have h2 := hinv.2
      exact flushCheck_batch tr metric w w1 l2 l1 (by rw [hp, hi, h1]; push_cast; ring)
        (by omega) ht h

theorem nodeLoop_batch {σ : Type} (tr : Transport σ) (metric : Metrics) :
    ∀ (nodes : List NodeSettings) (w w1 : World σ) (l l1 : Locals),
      (∀ n ∈ nodes, n.MetricName = metric.Name) → BatchInv l → TraceOK w.trace →
      nodeLoop tr metric nodes w l = .ok (w1, l1) → BatchInv l1 ∧ TraceOK w1.trace := by
  intro nodes
  induction nodes with
  | nil =>
    intro w w1 l l1 _ hinv ht h
    simp only [nodeLoop] at h
    cases h
    exact ⟨hinv, ht⟩
  | cons node rest ih =>
    intro w w1 l l1 hm hinv ht h
    simp only [nodeLoop] at h
    split at h
    · cases h
    · rename_i w2 l2 hbody
      have hstep := nodeBody_batch tr metric w w2 l l2 node (hm node (by simp)) hinv ht hbody
      exact ih w2 w1 l2 l1 (fun n hn => hm n (by simp [hn])) hstep.1 hstep.2 h

theorem metricBody_batch {σ : Type} (tr : Transport σ) (metric : Metrics) (w w1 : World σ)
    (hwf : metric.wf) (ht : TraceOK w.trace) (h : metricBody tr w metric = .ok w1) :
    TraceOK w1.trace := by
  simp only [metricBody] at h
  split at h
  · cases h
  · rename_i w2 l2 hloop
    have hl := nodeLoop_batch tr metric metric.Nodes w w2 Locals.init l2 hwf
      (by simp [BatchInv, Locals.init]) ht hloop
    split at h
    · cases h
      exact TraceOK_append _ _ hl.2 (TraceOK_addFields _ _)
    · cases h
      exact hl.2

theorem metricLoop_batch {σ : Type} (tr : Transport σ) :
    ∀ (metrics : List Metrics) (w w1 : World σ), (∀ m ∈ metrics, m.wf) → TraceOK w.trace →
      metricLoop tr metrics w = .ok w1 → TraceOK w1.trace := by
  intro metrics
  induction metrics with
  | nil =>
    intro w w1 _ ht h
    simp only [metricLoop] at h
    cases h
    exact ht
  | cons m rest ih =>
    intro w w1 hwf ht h
    simp only [metricLoop] at h
    split at h
    · cases h
    · rename_i w2 hbody
      exact ih w2 w1 (fun m hm => hwf m (by simp [hm]))
        (metricBody_batch tr m w w2 (hwf m (by simp)) ht hbody) h

theorem addToMetric_wf (node : NodeSettings) :
    ∀ (metrics out : List Metrics), (∀ m ∈ metrics, m.wf) →
      addToMetric node metrics = some out → ∀ m ∈ out, m.wf := by
  intro metrics
  induction metrics with
  | nil => intro out _ h; simp [addToMetric] at h
  | cons m rest ih =>
    intro out hwf h
    simp only [addToMetric] at h
    split at h
    · rename_i hname
      cases h
      intro m1 hm1
      simp only [List.mem_cons] at hm1
      rcases hm1 with rfl | hm1
      · intro n hn
        simp only [List.mem_append, List.mem_singleton] at hn
        rcases hn with hn | rfl
        · exact hwf m (by simp) n hn
        · exact hname
      · exact hwf m1 (by simp [hm1])
    · split at h
      · rename_i rest1 hrest
        cases h
        intro m1 hm1
        simp only [List.mem_cons] at hm1
        rcases hm1 with rfl | hm1
        · exact hwf _ (by simp)
        · exact ih rest1 (fun m hm => hwf m (by simp [hm])) hrest m1 hm1
      · cases h

theorem groupNodes_wf : ∀ (nodes : List NodeSettings) (metrics : List Metrics),
    (∀ m ∈ metrics, m.wf) → ∀ m ∈ groupNodes nodes metrics, m.wf := by
  intro nodes
  induction nodes with
  | nil => intro metrics hwf; simpa [groupNodes] using hwf
  | cons node rest ih =>
    intro metrics hwf
    simp only [groupNodes]
    split
    · rename_i metrics1 hadd
      exact ih metrics1 (addToMetric_wf node metrics metrics1 hwf hadd)
    · apply ih
      intro m hm
      simp only [List.mem_append, List.mem_singleton] at hm
      rcases hm with hm | rfl
      · exact hwf m hm
      · intro n hn
        simp only [List.mem_singleton] at hn
        subst hn
        rfl

theorem addToMetric_count (node : NodeSettings) :
    ∀ (metrics out : List Metrics), (∀ m ∈ metrics, m.Count = (m.Nodes.length : Int)) →
      addToMetric node metrics = some out → ∀ m ∈ out, m.Count = (m.Nodes.length : Int) := by
  intro metrics
  induction metrics with
  | nil => intro out _ h; simp [addToMetric] at h
  | cons m rest ih =>
    intro out hc h
    simp only [addToMetric] at h
    split at h
    · cases h
      intro m1 hm1
      simp only [List.mem_cons] at hm1
      rcases hm1 with rfl | hm1
      · simp [hc m (by simp)]
      · exact hc m1 (by simp [hm1])
    · split at h
      · rename_i rest1 hrest
        cases h
        intro m1 hm1
        simp only [List.mem_cons] at hm1
        rcases hm1 with rfl | hm1
        · exact hc _ (by simp)
        · exact ih rest1 (fun m hm => hc m (by simp [hm])) hrest m1 hm1
      · cases h

/-- The grouping loop counts the nodes of every metric it builds. -/
theorem groupNodes_count : ∀ (nodes : List NodeSettings) (metrics : List Metrics),
    (∀ m ∈ metrics, m.Count = (m.Nodes.length : Int)) →
    ∀ m ∈ groupNodes nodes metrics, m.Count = (m.Nodes.length : Int) := by
  intro nodes
  induction nodes with
  | nil => intro metrics hc; simpa [groupNodes] using hc
  | cons node rest ih =>
    intro metrics hc
    simp only [groupNodes]
    split
    · rename_i metrics1 hadd
      exact ih metrics1 (addToMetric_count node metrics metrics1 hc hadd)
    · apply ih
      intro m hm
      simp only [List.mem_append, List.mem_singleton] at hm
      rcases hm with hm | rfl
      · exact hc m hm
      · simp

theorem flushCheck_tagInv {σ : Type} (tr : Transport σ) (metric : Metrics) (w w1 : World σ)
    (l l1 : Locals) (hinv : TagInv l) (h : flushCheck tr metric w l = .ok (w1, l1)) :
    TagInv l1 := by
  simp only [flushCheck] at h
  split at h
  · split at h
    · cases h
      exact ⟨hinv.1, by simp⟩
    · split at h
      · cases h
      · cases h
        exact ⟨hinv.1, by simp⟩
  · cases h
    exact hinv

theorem nodeBody_tagInv {σ : Type} (tr : Transport σ) (metric : Metrics) (w w1 : World σ)
    (l l1 : Locals) (node : NodeSettings) (hinv : TagInv l)
    (h : nodeBody tr metric w l node = .ok (w1, l1)) : TagInv l1 := by
  simp only [nodeBody] at h
  split at h
  · split at h
    · cases h
    · rename_i l2 msg hres
      cases h
      exact resolveNode_tagInv l l1 node _ hinv hres
    · rename_i l2 hres
      exact flushCheck_tagInv tr metric w w1 l2 l1 (resolveNode_tagInv l l2 node _ hinv hres) h
  · exact flushCheck_tagInv tr metric w w1 l l1 hinv h

theorem nodeLoop_tagInv {σ : Type} (tr : Transport σ) (metric : Metrics) :
    ∀ (nodes : List NodeSettings) (w w1 : World σ) (l l1 : Locals), TagInv l →
      nodeLoop tr metric nodes w l = .ok (w1, l1) → TagInv l1 := by
  intro nodes
  induction nodes with
  | nil =>
    intro w w1 l l1 hinv h
    simp only [nodeLoop] at h
    cases h
    exact hinv
  | cons node rest ih =>
    intro w w1 l l1 hinv h
    simp only [nodeLoop] at h
    split at h
    · cases h
    · rename_i w2 l2 hbody
      exact ih w2 w1 l2 l1 (nodeBody_tagInv tr metric w w2 l l2 node hinv hbody) h

theorem TagInv_init : TagInv Locals.init := by
  refine ⟨by simp [bitTag, Locals.init], ?_⟩
  intro t ht
  simp [Locals.init] at ht

theorem decodeItem_valid (buf : List Nat) (t : Int) (i : Nat) (h : validTag t) :
    ∃ v, decodeItem buf t i = .ok (some v) ∧ ((∃ b, v = Value.bool b) ↔ t % 16 = s7bool) := by
  rcases h with ⟨h1, h8⟩ | ⟨hm, hlo, hhi⟩
  · have : t = 1 ∨ t = 2 ∨ t = 3 ∨ t = 4 ∨ t = 5 ∨ t = 6 ∨ t = 7 ∨ t = 8 := by omega
    rcases this with rfl | rfl | rfl | rfl | rfl | rfl | rfl | rfl <;>
      simp [decodeItem, s7bool, s7byte, s7word, s7dword, s7int, s7dint, s7uint, s7udint,
        s7real]
  · have hk : t / 16 = ((t / 16).toNat : Int) := by omega
    have hk7 : (t / 16).toNat ≤ 7 := by omega
    have hmask := mask_entry (t / 16).toNat hk7
    rw [← hk] at hmask
    simp [decodeItem, hm, s7bool, hmask]
    exact Decidable.em _

theorem bitTag_iff (t : Int) : bitTag t ↔ ∃ k : Int, 0 ≤ k ∧ k ≤ 7 ∧ t = 16 * k := by
  unfold bitTag
  constructor
  · intro h
    exact ⟨t / 16, h.2.1, h.2.2, by omega⟩
  · rintro ⟨k, h0, h7, rfl⟩
    omega

/-! ## A group that fits one batch -/

theorem resolveNode_none (l l1 : Locals) (node : NodeSettings)
    (h : resolveNode l node = .ok (l1, none)) :
    ∃ l2 tag, typeSwitch l2 node = some tag ∧
      l1.pos = l.pos + 1 ∧ l1.offset = l.offset ∧ l1.buf2 = l.buf2 ∧ l1.fields = l.fields ∧
      l1.items.length = l.items.length + 1 ∧ l1.dtype = l.dtype ++ [tag] := by
  simp only [resolveNode] at h
  split at h
  · cases h
  · cases h
  · rename_i l2 haddr
    have hf := addressSwitch_frame l l2 node _ haddr
    simp only [Locals.frame, Prod.mk.injEq] at hf
    obtain ⟨h1, h2, h3, h4, h5, h6⟩ := hf
    split at h
    · cases h
    · rename_i tag htag
      split at h
      · cases h
      · cases h
        exact ⟨l2, tag, htag, by simp [h1], h2, h3, h6, by simp [h4], by simp [h5]⟩

theorem flushCheck_skip {σ : Type} (tr : Transport σ) (metric : Metrics) (w : World σ)
    (l : Locals) (h18 : (l.items.length : Int) ≠ MaxItemsPerReq)
    (hc : (l.items.length : Int) + l.offset ≠ metric.Count) :
    flushCheck tr metric w l = .ok (w, l) := by
  simp only [flushCheck]
  rw [if_neg (by simp [h18, hc])]

theorem nodeLoop_nil_after {σ : Type} (r : Except Panic (World σ × Locals)) :
    (match r with
      | .error p => .error p
      | .ok (w1, l1) => (Except.ok (w1, l1) : Except Panic (World σ × Locals))) = r := by
  cases r with
  | error p => rfl
  | ok v => rfl

/-- In a group of at most 18 nodes that all resolve, the node loop is one batch check at
the locals after the last node. -/
theorem nodeLoop_single_batch {σ : Type} (tr : Transport σ) (metric : Metrics) (w : World σ) :
    ∀ (nodes : List NodeSettings) (l lf : Locals), nodes ≠ [] →
      (∀ n ∈ nodes, n.MetricName = metric.Name) → l.offset = 0 →
      ((l.items.length + nodes.length : Nat) : Int) = metric.Count →
      l.items.length + nodes.length ≤ 18 →
      resolveAll l nodes = some lf →
      nodeLoop tr metric nodes w l = flushCheck tr metric w lf ∧
        lf.items.length = l.items.length + nodes.length ∧ lf.offset = 0 ∧
        lf.pos = l.pos + nodes.length ∧ lf.buf2 = l.buf2 ∧ lf.fields = l.fields ∧
        ∃ tags, lf.dtype = l.dtype ++ tags ∧
          List.Forall₂ (fun nd t => ∃ li, typeSwitch li nd = some t) nodes tags := by
  intro nodes
  induction nodes with
  | nil => intro l lf hne; exact absurd rfl hne
  | cons node rest ih =>
    intro l lf _ hm hoff hcount hle hres
    simp only [resolveAll] at hres
    split at hres
    · rename_i l1 hnode
      obtain ⟨l2, tag, htag, hp, ho, hb, hfl, hi, hd⟩ := resolveNode_none l l1 node hnode
      simp only [List.length_cons] at hcount hle
      cases rest with
      | nil =>
        simp only [resolveAll, Option.some.injEq] at hres
        subst hres
        refine ⟨?_, by simp [hi], by rw [ho, hoff], by simp [hp], hb, hfl, [tag], hd,
          List.Forall₂.cons ⟨l2, htag⟩ List.Forall₂.nil⟩
        simp only [nodeLoop, nodeBody, hm node (by simp), if_true, hnode]
        exact nodeLoop_nil_after _
      | cons node2 rest2 =>
        simp only [List.length_cons] at hcount hle
        have hskip := flushCheck_skip tr metric w l1
          (by simp only [MaxItemsPerReq, hi]; push_cast; omega)
          (by rw [ho, hoff, hi, ← hcount]; push_cast; omega)
        obtain ⟨hloop, hlen, hoff2, hpos, hbuf, hfields, tags, hdt, hall⟩ :=
          ih l1 lf (by simp) (fun n hn => hm n (by simp [hn])) (by rw [ho, hoff])
            (by rw [← hcount, hi]; simp only [List.length_cons]; push_cast; ring)
            (by rw [hi]; simp only [List.length_cons]; omega) hres
        refine ⟨?_, by rw [hlen, hi]; simp only [List.length_cons]; omega, hoff2,
          by rw [hpos, hp]; simp only [List.length_cons]; push_cast; ring,
          by rw [hbuf, hb], by rw [hfields, hfl], tag :: tags,
          by rw [hdt, hd]; simp, List.Forall₂.cons ⟨l2, htag⟩ hall⟩
        rw [← hloop]
        simp only [nodeLoop, nodeBody, hm node (by simp), if_true, hnode, hskip]
    · cases hres

theorem Fields_set_fresh : ∀ (f : Fields) (k : GoString) (v : Value),
    k ∉ f.map Prod.fst → Fields.set f k v = f ++ [(k, v)] := by
  intro f
  induction f with
  | nil => intro k v _; rfl
  | cons p rest ih =>
    intro k v hk
    obtain ⟨k0, v0⟩ := p
    simp only [List.map_cons, List.mem_cons, not_or] at hk
    simp only [Fields.set, List.cons_append]
    rw [if_neg (fun h => hk.1 h.symm), ih k v hk.2]

theorem index_append_cons {α : Type} (xs ys : List α) (y : α) :
    index (xs ++ y :: ys) (xs.length : Int) = .ok y := by
  have h : ¬ ((xs.length : Int) < 0) := by omega
  have hg : (xs ++ y :: ys).get? xs.length = some y := by
    rw [List.get?_eq_getElem?, List.getElem?_append_right (Nat.le_refl _)]
    simp
  simp only [index, h, if_false, Int.toNat_ofNat, hg]

/-- The decode loop over the rest of a batch whose tags are all valid and whose field
names are new: one value per point, stored under the name of the node at the same
position. -/
theorem decodeLoop_spec (metric : Metrics) (l : Locals) (hoff : l.offset = 0)
    (hnodup : (metric.Nodes.map (fun nd => nd.Name)).Nodup) :
    ∀ (todoN : List NodeSettings) (todoT : List Int) (doneN : List NodeSettings)
      (doneT : List Int) (f : Fields),
      metric.Nodes = doneN ++ todoN → l.dtype = doneT ++ todoT →
      doneN.length = doneT.length → todoN.length = todoT.length →
      (∀ t ∈ todoT, validTag t) → f.map Prod.fst = doneN.map (fun nd => nd.Name) →
      ∃ vals : List Value, vals.length = todoT.length ∧
        (∀ j, j < todoT.length →
          decodeItem l.buf2 (todoT.getD j 0) (doneT.length + j) =
            .ok (some (vals.getD j (Value.bool false)))) ∧
        decodeLoop metric l todoT.length doneT.length (some f) =
          .ok (some (f ++ (todoN.map (fun nd => nd.Name)).zip vals)) := by
  intro todoN
  induction todoN with
  | nil =>
    intro todoT doneN doneT f _ _ _ hlen _ _
    have : todoT = [] := by
      cases todoT with
      | nil => rfl
      | cons a b => simp at hlen
    subst this
    exact ⟨[], rfl, by intro j hj; simp at hj, by simp [decodeLoop]⟩
  | cons nd restN ih =>
    intro todoT doneN doneT f hN hT hdone hlen hvalid hkeys
    cases todoT with
    | nil => simp at hlen
    | cons tag restT =>
      simp only [List.length_cons, Nat.add_right_cancel_iff] at hlen
      obtain ⟨v, hv, _⟩ := decodeItem_valid l.buf2 tag doneT.length (hvalid tag (by simp))
      have hfresh : nd.Name ∉ f.map Prod.fst := by
        rw [hkeys]
        rw [hN] at hnodup
        simp only [List.map_append, List.map_cons] at hnodup
        have := (List.nodup_append.mp hnodup).2.2
        intro hmem
        exact this hmem (by simp)
      obtain ⟨vals, hvl, hvals, hloop⟩ := ih restT (doneN ++ [nd]) (doneT ++ [tag])
        (f ++ [(nd.Name, v)]) (by rw [hN]; simp) (by rw [hT]; simp) (by simp [hdone]) hlen
        (fun t ht => hvalid t (by simp [ht])) (by simp [hkeys])
      refine ⟨v :: vals, by simp [hvl], ?_, ?_⟩
      · intro j hj
        cases j with
        | zero => simpa using hv
        | succ j =>
          have := hvals j (by simp only [List.length_cons] at hj; omega)
          simp only [List.length_append, List.length_singleton] at this
          simp only [List.getD_cons_succ]
          rw [← this]
          congr 1
          omega
      · have hidxT : index l.dtype (doneT.length : Int) = .ok tag := by
          rw [hT]; exact index_append_cons doneT restT tag
        have hidxN : index metric.Nodes (l.offset + (doneT.length : Int)) = .ok nd := by
          rw [hoff, hN, Int.zero_add, ← hdone]; exact index_append_cons doneN restN nd
        simp only [List.length_cons, decodeLoop, hidxT, hv, hidxN, assign,
          Fields_set_fresh f nd.Name v hfresh]
        simp only [List.length_append, List.length_singleton] at hloop
        rw [hloop]
        simp

theorem resolveAll_tagInv : ∀ (nodes : List NodeSettings) (l lf : Locals), TagInv l →
    resolveAll l nodes = some lf → TagInv lf := by
  intro nodes
  induction nodes with
  | nil =>
    intro l lf hinv h
    simp only [resolveAll, Option.some.injEq] at h
    subst h
    exact hinv
  | cons node rest ih =>
    intro l lf hinv h
    simp only [resolveAll] at h
    split at h
    · rename_i l1 hnode
      exact ih l1 lf (resolveNode_tagInv l l1 node _ hinv hnode) h
    · cases h

/-! ## Claim C11: a group that fits one batch -/

/-- Claim C11: for a metric group of 1 to 18 nodes that all resolve (leaving the locals
`lf`) and have pairwise distinct field names, when the transport call succeeds the body
of the metric loop makes exactly one transport call, with the `k` resolved items and
item count `k`, and exactly one `AddFields` call, named by the metric, whose field map
lists the `k` node names in order, the `i`-th mapped to the value decoded from slot `i`
of the buffer under the `i`-th decode tag, the tag the type switch gave the `i`-th
node. -/
theorem single_batch_group {σ : Type} (tr : Transport σ) (w : World σ) (metric : Metrics)
    (lf : Locals) (datas : List (List Nat)) (st1 : σ)
    (hwf : metric.wf) (hcount : metric.Count = (metric.Nodes.length : Int))
    (hk1 : 1 ≤ metric.Nodes.length) (hk : metric.Nodes.length ≤ 18)
    (hres : resolveAll Locals.init metric.Nodes = some lf)
    (hdist : (metric.Nodes.map (fun nd => nd.Name)).Nodup)
    (hok : tr.AGReadMulti w.tstate lf.items lf.pos = (st1, .ok datas)) :
    lf.items.length = metric.Nodes.length ∧
    List.Forall₂ (fun nd t => ∃ li, typeSwitch li nd = some t) metric.Nodes lf.dtype ∧
    ∃ vals : List Value, vals.length = metric.Nodes.length ∧
      (∀ i, i < metric.Nodes.length →
        decodeItem (storeReads (List.replicate 72 0) lf.items datas) (lf.dtype.getD i 0) i =
          .ok (some (vals.getD i (Value.bool false)))) ∧
      ∃ w1, metricBody tr w metric = .ok w1 ∧ w1.tstate = st1 ∧
        w1.trace = w.trace ++
          [Event.readMulti lf.items (metric.Nodes.length : Int),
           Event.addFields metric.Name ((metric.Nodes.map (fun nd => nd.Name)).zip vals)] := by
  have hne : metric.Nodes ≠ [] := by
    intro h; rw [h] at hk1; simp at hk1
  obtain ⟨hloop, hlen, hoff, hpos, hbuf, hfields, tags, hdt, hall⟩ :=
    nodeLoop_single_batch tr metric w metric.Nodes Locals.init lf hne hwf rfl
      (by rw [hcount]; simp [Locals.init]) (by simp [Locals.init]; exact hk) hres
  have hlen' : lf.items.length = metric.Nodes.length := by
    rw [hlen]; simp [Locals.init]
  have hdt' : lf.dtype = tags := by rw [hdt]; simp [Locals.init]
  have hpos' : lf.pos = (metric.Nodes.length : Int) := by
    rw [hpos]; simp [Locals.init]
  have hbuf' : lf.buf2 = List.replicate 72 0 := by rw [hbuf]; rfl
  have hfields' : lf.fields = some [] := by rw [hfields]; rfl
  have htl : metric.Nodes.length = lf.dtype.length := by
    rw [hdt']; exact hall.length_eq
  have hinv := resolveAll_tagInv metric.Nodes Locals.init lf TagInv_init hres
  refine ⟨hlen', by rw [hdt']; exact hall, ?_⟩
  obtain ⟨vals, hvl, hvals, hdec⟩ := decodeLoop_spec metric
    { lf with buf2 := storeReads lf.buf2 lf.items datas } hoff hdist
    metric.Nodes lf.dtype [] [] [] (by simp) (by simp) rfl htl hinv.2 (by simp)
  refine ⟨vals, by rw [hvl, htl], ?_, ?_⟩
  · intro i hi
    have := hvals i (by rw [← htl]; exact hi)
    simpa [hbuf'] using this
  · have hflush : flushCheck tr metric w lf =
        .ok ({ tstate := st1, trace := w.trace ++ [Event.readMulti lf.items lf.pos] },
          { lf with buf2 := storeReads lf.buf2 lf.items datas,
                    fields := some ((metric.Nodes.map (fun nd => nd.Name)).zip vals),
                    offset := lf.pos, dtype := [], items := [], pos := 0 }) := by
      simp only [flushCheck]
      rw [if_pos (Or.inr (by rw [hoff, hlen', hcount]; simp))]
      simp only [hok, hfields', hlen', htl]
      simp only [List.length_nil, List.nil_append, hfields'] at hdec
      rw [hdec]
    refine ⟨{ tstate := st1,
              trace := w.trace ++ [Event.readMulti lf.items lf.pos] ++
                [Event.addFields metric.Name
                  ((metric.Nodes.map (fun nd => nd.Name)).zip vals)] }, ?_, rfl, ?_⟩
    · simp only [metricBody, hloop, hflush]
    · simp [hpos']

/-- Claim C11 at the group `a: DB1.DBW0/word`, `b: DB1.DBX10.0/bool` with the transport
answering `00 01` for the first item and `01` for the second; evaluated, `Gather` emits
the record `m` with `a = 1` and `b = true`. -/
theorem single_batch_group_witness :
    (∃ lf, resolveAll Locals.init
          [nodeNamed "a" "DB1.DBW0" "word", nodeNamed "b" "DB1.DBX10.0" "bool"] = some lf ∧
      lf.items.length = 2 ∧
      ∃ vals : List Value, vals.length = 2 ∧
        ∃ w1, metricBody (slotTransport [[0, 1], [1]]) { tstate := (), trace := [] }
            { Name := "m".toList, Count := 2,
              Nodes := [nodeNamed "a" "DB1.DBW0" "word",
                        nodeNamed "b" "DB1.DBX10.0" "bool"] } = .ok w1 ∧
          w1.trace = [Event.readMulti lf.items 2,
            Event.addFields "m".toList (["a".toList, "b".toList].zip vals)]) ∧
    (eventsOf (Gather (readyConfig
        [nodeNamed "a" "DB1.DBW0" "word", nodeNamed "b" "DB1.DBX10.0" "bool"])
        (slotTransport [[0, 1], [1]]) ())).map emitted =
      some [("m".toList, [("a".toList, Value.uint16 1), ("b".toList, Value.bool true)])] := by
  refine ⟨?_, by decide⟩
  have h := single_batch_group (slotTransport [[0, 1], [1]]) { tstate := (), trace := [] }
    { Name := "m".toList, Count := 2,
      Nodes := [nodeNamed "a" "DB1.DBW0" "word", nodeNamed "b" "DB1.DBX10.0" "bool"] }
    ((resolveAll Locals.init
      [nodeNamed "a" "DB1.DBW0" "word", nodeNamed "b" "DB1.DBX10.0" "bool"]).getD Locals.init)
    [[0, 1], [1]] () (by simp [Metrics.wf, nodeNamed]) rfl (by decide) (by decide)
    (by decide) (by decide) rfl
  obtain ⟨h1, _, vals, hv, _, w1, hw, _, ht⟩ := h
  exact ⟨_, by decide, h1, vals, hv, w1, hw, ht⟩

/-! ## Claim C12: the value stored for each declared type -/

/-- Claim C12: for a slot `b0 b1 b2 b3` of bytes at position `i` of the buffer and a node
whose declared type is byte, word, uint, int, dword, udint, dint or time, the tag the
type switch appends makes the decode loop store the value the specification gives:
`b0`, the big-endian unsigned 16- or 32-bit number, or its reading as a signed number
in two's complement. -/
theorem decode_matches_declared_type (l : Locals) (node : NodeSettings) (buf : List Nat)
    (i b0 b1 b2 b3 : Nat) (v : Value)
    (h0 : buf.getD (i * 4) 0 = b0) (h1 : buf.getD (i * 4 + 1) 0 = b1)
    (h2 : buf.getD (i * 4 + 2) 0 = b2) (h3 : buf.getD (i * 4 + 3) 0 = b3)
    (hb0 : b0 < 256) (hb1 : b1 < 256) (hb2 : b2 < 256) (hb3 : b3 < 256)
    (hv : declaredValue node.Type_ b0 b1 b2 b3 = some v) :
    ∃ tag, typeSwitch l node = some tag ∧ decodeItem buf tag i = .ok (some v) := by
  have r1 := readBE_one buf (i * 4) b0 h0 hb0
  have r2 := readBE_two buf (i * 4) b0 b1 h0 h1 hb0 hb1
  have r4 := readBE_four buf (i * 4) b0 b1 b2 b3 h0 h1 h2 h3 hb0 hb1 hb2 hb3
  unfold declaredValue at hv
  split at hv
  · rename_i ht
    cases hv
    exact ⟨s7byte, by simp [typeSwitch, ht], by simp [decodeItem, s7byte, s7bool, r1]⟩
  · split at hv
    · rename_i ht
      cases hv
      rcases ht with ht | ht
      · exact ⟨s7word, by simp [typeSwitch, ht], by
          simp [decodeItem, s7word, s7byte, s7bool, r2]⟩
      · exact ⟨s7uint, by simp [typeSwitch, ht], by
          simp [decodeItem, s7uint, s7int, s7dint, s7dword, s7word, s7byte, s7bool, r2]⟩
    · split at hv
      · rename_i ht
        cases hv
        exact ⟨s7int, by simp [typeSwitch, ht], by
          simp only [decodeItem, s7int, s7dword, s7word, s7byte, s7bool, r2]
          rw [toSigned_16 _ (by omega)]
          simp⟩
      · split at hv
        · rename_i ht
          cases hv
          rcases ht with ht | ht
          · exact ⟨s7dword, by simp [typeSwitch, ht], by
              simp [decodeItem, s7dword, s7word, s7byte, s7bool, r4]⟩
          · exact ⟨s7udint, by simp [typeSwitch, ht], by
              simp [decodeItem, s7udint, s7uint, s7int, s7dint, s7dword, s7word, s7byte,
                s7bool, r4]⟩
        · split at hv
          · rename_i ht
            cases hv
            rcases ht with ht | ht
            · exact ⟨s7dint, by simp [typeSwitch, ht], by
                simp only [decodeItem, s7int, s7dint, s7dword, s7word, s7byte, s7bool, r4]
                rw [toSigned_32 _ (by omega)]
                simp⟩
            · exact ⟨s7dint, by simp [typeSwitch, ht], by
                simp only [decodeItem, s7int, s7dint, s7dword, s7word, s7byte, s7bool, r4]
                rw [toSigned_32 _ (by omega)]
                simp⟩
          · cases hv

/-- Claim C12 at Word `BE EF`, DWord `DE AD BE EF` (in slot 1), Int `FF FF` and DInt
`80 00 00 00`. -/
theorem decode_matches_declared_type_witness :
    (∃ tag, typeSwitch Locals.init (nodeAt "MW0" "word") = some tag ∧
      decodeItem [0xBE, 0xEF, 0, 0] tag 0 = .ok (some (Value.uint16 0xBEEF))) ∧
    (∃ tag, typeSwitch Locals.init (nodeAt "MD0" "dword") = some tag ∧
      decodeItem [0, 0, 0, 0, 0xDE, 0xAD, 0xBE, 0xEF] tag 1 =
        .ok (some (Value.uint32 0xDEADBEEF))) ∧
    (∃ tag, typeSwitch Locals.init (nodeAt "MW0" "int") = some tag ∧
      decodeItem [0xFF, 0xFF, 0, 0] tag 0 = .ok (some (Value.int16 (-1)))) ∧
    (∃ tag, typeSwitch Locals.init (nodeAt "MD0" "dint") = some tag ∧
      decodeItem [0x80, 0, 0, 0] tag 0 = .ok (some (Value.int32 (-2147483648)))) :=
  ⟨decode_matches_declared_type Locals.init (nodeAt "MW0" "word") [0xBE, 0xEF, 0, 0] 0
      0xBE 0xEF 0 0 _ rfl rfl rfl rfl (by decide) (by decide) (by decide) (by decide)
      (by decide),
   decode_matches_declared_type Locals.init (nodeAt "MD0" "dword")
      [0, 0, 0, 0, 0xDE, 0xAD, 0xBE, 0xEF] 1 0xDE 0xAD 0xBE 0xEF _ rfl rfl rfl rfl
      (by decide) (by decide) (by decide) (by decide) (by decide),
   decode_matches_declared_type Locals.init (nodeAt "MW0" "int") [0xFF, 0xFF, 0, 0] 0
      0xFF 0xFF 0 0 _ rfl rfl rfl rfl (by decide) (by decide) (by decide) (by decide)
      (by decide),
   decode_matches_declared_type Locals.init (nodeAt "MD0" "dint") [0x80, 0, 0, 0] 0
      0x80 0 0 0 _ rfl rfl rfl rfl (by decide) (by decide) (by decide) (by decide)
      (by decide)⟩

/-! ## Claim C13: the bit tested for a bool point -/

/-- Claim C13: a node declared bool whose address is `DB<n>.DBX<b>.<k>` or `<c><b>.<k>`
with `k` in 0..7 resolves with the decode tag `16 * k`; decoding a slot whose first byte
is `v` under that tag stores `(v AND (1 << k)) != 0`, and entry `k` of the mask table is
`1 << k`. -/
theorem bool_point_tests_its_bit (l : Locals) (node : NodeSettings) (n b k : Nat)
    (buf : List Nat) (i v : Nat)
    (hk : k ≤ 7) (hpos : 0 ≤ l.pos ∧ l.pos < 18) (hbuf : l.buf2.length = 72)
    (ht : node.Type_ = "bool".toList)
    (ha : node.Address = dbxAddress n b (decimal k) ∨
          ∃ c ∈ genericAreas, node.Address = genericAddress c b (decimal k))
    (hv : buf.getD (i * 4) 0 = v) (hvb : v < 256) :
    ∃ l1, resolveNode l node = .ok (l1, none) ∧ l1.dtype = l.dtype ++ [(k : Int) * 16] ∧
      decodeItem buf ((k : Int) * 16) i =
        .ok (some (Value.bool (Nat.land v (1 <<< k) != 0))) ∧
      index mask (k : Int) = .ok (1 <<< k) := by
  obtain ⟨l1, h1, h2, _⟩ := resolve_bit_address_bool l node n b k hk hpos hbuf ht ha
  exact ⟨l1, h1, h2, decodeItem_bool buf i k v hk hv hvb, mask_entry k hk⟩

/-- Claim C13 at bit 3: `DB1.DBX10.3` with first byte `0x08` gives true, `M0.3` with
first byte `0x00` gives false. -/
theorem bool_point_tests_its_bit_witness :
    (∃ l1, resolveNode Locals.init (nodeAt "DB1.DBX10.3" "bool") = .ok (l1, none) ∧
      l1.dtype = [48] ∧
      decodeItem [0x08, 0, 0, 0] 48 0 = .ok (some (Value.bool true)) ∧
      index mask 3 = .ok 8) ∧
    (∃ l1, resolveNode Locals.init (nodeAt "M0.3" "bool") = .ok (l1, none) ∧
      l1.dtype = [48] ∧
      decodeItem [0x00, 0, 0, 0] 48 0 = .ok (some (Value.bool false)) ∧
      index mask 3 = .ok 8) :=
  ⟨bool_point_tests_its_bit Locals.init (nodeAt "DB1.DBX10.3" "bool") 1 10 3
      [0x08, 0, 0, 0] 0 0x08 (by decide) (by decide) (by decide) (by decide)
      (Or.inl (by decide)) rfl (by decide),
   bool_point_tests_its_bit Locals.init (nodeAt "M0.3" "bool") 0 0 3
      [0x00, 0, 0, 0] 0 0x00 (by decide) (by decide) (by decide) (by decide)
      (Or.inr ⟨'M', by decide, by decide⟩) rfl (by decide)⟩

/-! ## Claims C14 and C15: the shorthand of the memory area, and state kept between nodes -/

/-- Claim C14, evaluated on `MW16` declared word: alone in its group the node is read
with area 0, and after `DB1.DBW0` it is read with the area 0x84 of that node; it is
neither rejected nor given the memory area 0x83. -/
theorem shorthand_memory_area_not_set :
    (eventsOf (Gather (readyConfig [nodeAt "MW16" "word"]) echoTransport ())).map
        (fun t => (readBatches t).map (fun b => b.map (fun it => (it.Area, it.Start))))
      = some [[(0, 16)]] ∧
    (eventsOf (Gather (readyConfig [nodeAt "DB1.DBW0" "word", nodeAt "MW16" "word"])
        echoTransport ())).map
        (fun t => (readBatches t).map (fun b => b.map (fun it => (it.Area, it.Start))))
      = some [[(0x84, 0), (0x84, 16)]] := by
  decide

/-- Claim C15, evaluated on the two pairs it names: `MW16`/word gets area 0x81 after
`I0.1` and area 0x84 after `DB1.DBW0`; `DB1.DBB0`/bool gets the decode tag 80 (bit 5)
after `DB1.DBX0.5` and the tag 0 (bit 0) when it is first in its group. -/
theorem resolution_depends_on_earlier_nodes :
    (resolveAll Locals.init [nodeAt "I0.1" "bool", nodeAt "MW16" "word"]).map
        (fun l => l.items.map (fun it => it.Area)) = some [0x81, 0x81] ∧
    (resolveAll Locals.init [nodeAt "DB1.DBW0" "word", nodeAt "MW16" "word"]).map
        (fun l => l.items.map (fun it => it.Area)) = some [0x84, 0x84] ∧
    (resolveAll Locals.init [nodeAt "DB1.DBX0.5" "bool", nodeAt "DB1.DBB0" "bool"]).map
        (fun l => l.dtype) = some [80, 80] ∧
    (resolveAll Locals.init [nodeAt "DB1.DBB0" "bool"]).map (fun l => l.dtype) = some [0] := by
  decide

/-! ## Claim C16: the size of every batch -/

/-- The batch the next node hands to the batch check: in a group as the grouping loop
builds it, after any run of the node loop that returned, a node that resolves leaves
between 1 and 18 items and `pos` equal to their number. -/
theorem next_batch_within_limit {σ : Type} (tr : Transport σ) (metric : Metrics)
    (pre : List NodeSettings) (w w1 : World σ) (l l1 : Locals) (node : NodeSettings)
    (hpre : ∀ n ∈ pre, n.MetricName = metric.Name)
    (hrun : nodeLoop tr metric pre { w with trace := [] } Locals.init = .ok (w1, l))
    (hres : resolveNode l node = .ok (l1, none)) :
    1 ≤ l1.items.length ∧ l1.items.length ≤ 18 ∧ l1.pos = (l1.items.length : Int) := by
  have hnil : TraceOK ([] : List Event) := by
    intro items cnt hmem
    simp at hmem
  have hinv := (nodeLoop_batch tr metric pre _ w1 Locals.init l hpre
    (by simp [BatchInv, Locals.init]) hnil hrun).1
  rcases resolveNode_batch l l1 node _ hres with ⟨hr, _⟩ | ⟨_, hp, hi, _⟩
  · exact absurd rfl hr
  · have h1 := hinv.1
    have h2 := hinv.2
    refine ⟨by omega, by omega, ?_⟩
    rw [hp, hi, h1]
    push_cast
    ring

/-- Claim C16: in every run of `Gather` that returns, whatever the configured nodes and
whatever the transport does, each batch handed to the transport has at least 1 and at
most `MaxItemsPerReq` = 18 items, and the item count passed with it is its length. -/
theorem gather_batches_within_limit {σ : Type} (s : S7Comm) (tr : Transport σ) (st : σ)
    (t : List Event) (h : eventsOf (Gather s tr st) = some t) : TraceOK t := by
  simp only [Gather] at h
  split at h
  · split at h
    · simp [eventsOf] at h
    · rename_i w hloop
      simp only [eventsOf, Option.some.injEq] at h
      subst h
      exact metricLoop_batch tr _ _ w (groupNodes_wf s.Nodes [] (by simp))
        (by intro items cnt hmem; simp at hmem) hloop
  · simp only [eventsOf, Option.some.injEq] at h
    subst h
    intro items cnt hmem
    simp at hmem

/-- Claim C16 on a group of 20 points, read in batches of 18 and 2. -/
theorem gather_batches_within_limit_witness :
    (eventsOf (Gather (readyConfig (wordGroup "m".toList 20)) echoTransport ())).map
        (fun t => (readBatches t).map List.length) = some [18, 2] ∧
    TraceOK ((eventsOf (Gather (readyConfig (wordGroup "m".toList 20)) echoTransport ())).getD
      []) :=
  ⟨by decide,
   gather_batches_within_limit (readyConfig (wordGroup "m".toList 20)) echoTransport () _
     (by decide)⟩

/-! ## Claims C17 to C19: the three address forms -/

/-- Claim C17: for a node of the group whose address is `DB<n>.<code><b>` with a
three-letter code other than `DBX`: when the code is `DBB`, `DBW` or `DBD`, `n` and `b`
are at most 32767 and the declared type is known, one item is appended with area 0x84,
`DBNumber = n`, `Start = b` and `Amount` 1, 2 or 4; when the code is any other, the node
is given up with a logged error and nothing is appended. -/
theorem resolve_db_field_codes {σ : Type} (tr : Transport σ) (metric : Metrics) (w : World σ)
    (l : Locals) (node : NodeSettings) (n b : Nat) (code : GoString)
    (hm : node.MetricName = metric.Name)
    (hlen : code.length = 3) (hdot : ∀ x ∈ code, x ≠ '.') (hx : code ≠ ['D', 'B', 'X'])
    (ha : node.Address = dbAddress n code b)
    (hpos : 0 ≤ l.pos ∧ l.pos < 18) (hbuf : l.buf2.length = 72) :
    (∀ sz wd, fieldCodeSize code = some sz → n ≤ 32767 → b ≤ 32767 →
      naturalWidth node.Type_ = some wd →
      resolvedOf (resolveNode l node) =
        some (l.items ++ [{ Area := 0x84, WordLen := 0x02, DBNumber := n, Start := b,
                            Amount := sz, Data := (l.pos * 4).toNat, Error := [] }],
              l.dtype ++ [typeTag l.s7_bit node.Type_])) ∧
    (fieldCodeSize code = none →
      ∃ l1, nodeBody tr metric w l node =
          .ok (w.log ["Error when parsing dbtype for address ".toList, node.Address], l1) ∧
        l1.items = l.items ∧ l1.dtype = l.dtype) := by
  have hsw := addressSwitch_db l node n b code hlen hdot hx ha
  constructor
  · intro sz wd hsz hn hb hw
    rw [hsz] at hsw
    have hcn : clamp16 n = n := by simp [clamp16, hn]
    have hcb : clamp16 b = b := by simp [clamp16, hb]
    rw [hcn, hcb] at hsw
    rw [resolveNode_of_addressSwitch l _ node wd hpos hbuf hsw hw]
    rfl
  · intro hnone
    rw [hnone] at hsw
    exact ⟨_, nodeBody_of_rejected tr metric w l _ node _ hm hsw, rfl, rfl⟩

/-- Claim C17 at `DB1.DBD4` declared real and at `DB1.DBQ4`. -/
theorem resolve_db_field_codes_witness :
    resolvedOf (resolveNode Locals.init (nodeAt "DB1.DBD4" "real")) =
      some ([{ Area := 0x84, WordLen := 0x02, DBNumber := 1, Start := 4, Amount := 4,
               Data := 0, Error := [] }], [s7real]) ∧
    (∃ l1, nodeBody echoTransport { Name := "m".toList, Count := 1, Nodes := [] }
        { tstate := (), trace := [] } Locals.init (nodeAt "DB1.DBQ4" "real") =
          .ok (World.log { tstate := (), trace := [] }
            ["Error when parsing dbtype for address ".toList, "DB1.DBQ4".toList], l1) ∧
        l1.items = [] ∧ l1.dtype = []) :=
  ⟨(resolve_db_field_codes echoTransport { Name := "m".toList, Count := 1, Nodes := [] }
      { tstate := (), trace := [] } Locals.init (nodeAt "DB1.DBD4" "real") 1 4
      ['D', 'B', 'D'] (by decide) (by decide) (by decide) (by decide) (by decide)
      (by decide) (by decide)).1 4 4 (by decide) (by decide) (by decide) (by decide),
   (resolve_db_field_codes echoTransport { Name := "m".toList, Count := 1, Nodes := [] }
      { tstate := (), trace := [] } Locals.init (nodeAt "DB1.DBQ4" "real") 1 4
      ['D', 'B', 'Q'] (by decide) (by decide) (by decide) (by decide) (by decide)
      (by decide) (by decide)).2 (by decide)⟩

/-- Claim C18: a shorthand `<c1><c2><n>` with `c1` one of `E`, `I` (area 0x81) or `A`, `Q`
(area 0x82), `c2` one of `B`, `W`, `D` (size 1, 2, 4), `n` at most 32767 and a known
declared type resolves to one more item with that area and size, `Start = n`,
`DBNumber = 0` and word-length code 0x02. -/
theorem resolve_shorthand (l : Locals) (node : NodeSettings) (c1 c2 : Char) (n : Nat)
    (a sz wd : Int)
    (hc1 : shorthandArea c1 = some a) (hc2 : shorthandSize c2 = some sz) (hn : n ≤ 32767)
    (ha : node.Address = shorthandAddress c1 c2 n)
    (hw : naturalWidth node.Type_ = some wd)
    (hpos : 0 ≤ l.pos ∧ l.pos < 18) (hbuf : l.buf2.length = 72) :
    resolvedOf (resolveNode l node) =
      some (l.items ++ [{ Area := a, WordLen := 0x02, DBNumber := 0, Start := n,
                          Amount := sz, Data := (l.pos * 4).toNat, Error := [] }],
            l.dtype ++ [typeTag l.s7_bit node.Type_]) := by
  have hA : [c1, c2] ∈ shorthandAreas := by
    simp only [shorthandArea] at hc1
    simp only [shorthandSize] at hc2
    have h1 : c1 = 'E' ∨ c1 = 'I' ∨ c1 = 'A' ∨ c1 = 'Q' := by
      by_contra hcon
      simp only [not_or] at hcon
      simp [hcon.1, hcon.2.1, hcon.2.2.1, hcon.2.2.2] at hc1
    have h2 : c2 = 'B' ∨ c2 = 'W' ∨ c2 = 'D' := by
      by_contra hcon
      simp only [not_or] at hcon
      simp [hcon.1, hcon.2.1, hcon.2.2] at hc2
    rcases h1 with rfl | rfl | rfl | rfl <;> rcases h2 with rfl | rfl | rfl <;> decide
  have hsw := addressSwitch_shorthand l node c1 c2 n hA ha
  rw [hc1, hc2] at hsw
  have hcn : clamp16 n = n := by simp [clamp16, hn]
  rw [hcn] at hsw
  rw [resolveNode_of_addressSwitch l _ node wd hpos hbuf hsw hw]
  rfl

/-- Claim C18 at `IW2` declared word and `QD4` declared real. -/
theorem resolve_shorthand_witness :
    resolvedOf (resolveNode Locals.init (nodeAt "IW2" "word")) =
      some ([{ Area := 0x81, WordLen := 0x02, DBNumber := 0, Start := 2, Amount := 2,
               Data := 0, Error := [] }], [s7word]) ∧
    resolvedOf (resolveNode Locals.init (nodeAt "QD4" "real")) =
      some ([{ Area := 0x82, WordLen := 0x02, DBNumber := 0, Start := 4, Amount := 4,
               Data := 0, Error := [] }], [s7real]) :=
  ⟨resolve_shorthand Locals.init (nodeAt "IW2" "word") 'I' 'W' 2 0x81 2 2 (by decide)
      (by decide) (by decide) (by decide) (by decide) (by decide) (by decide),
   resolve_shorthand Locals.init (nodeAt "QD4" "real") 'Q' 'D' 4 0x82 4 4 (by decide)
      (by decide) (by decide) (by decide) (by decide) (by decide) (by decide)⟩

/-- Claim C19: for a node of the group, (1) a generic bit address `<c><b>.<bit>` with `c`
one of `I`, `E` (area 0x81), `0`, `A` (area 0x82), `M` (area 0x83), `b` at most 32767,
`bit` in 0..7 and a known declared type resolves to one more item with that area,
`Start = b`, `DBNumber = 0`, `Amount = 1`, the bit offset being kept as `16 * bit`;
(2) an address that reaches the fallback branch with any other first character is given
up with a logged error and nothing is appended. -/
theorem resolve_generic_bit {σ : Type} (tr : Transport σ) (metric : Metrics) (w : World σ)
    (l : Locals) (node : NodeSettings) (hm : node.MetricName = metric.Name)
    (hpos : 0 ≤ l.pos ∧ l.pos < 18) (hbuf : l.buf2.length = 72) :
    (∀ (c : Char) (b bit : Nat) (wd : Int), c ∈ genericAreas → b ≤ 32767 → bit ≤ 7 →
      node.Address = genericAddress c b (decimal bit) →
      naturalWidth node.Type_ = some wd →
      resolvedOf (resolveNode l node) =
        some (l.items ++ [{ Area := genericArea c, WordLen := 0x02, DBNumber := 0,
                            Start := b, Amount := 1, Data := (l.pos * 4).toNat,
                            Error := [] }],
              l.dtype ++ [typeTag ((bit : Int) * 16) node.Type_])) ∧
    (∀ (c d : Char) (rest : GoString), node.Address = c :: d :: rest →
      [c, d] ∉ shorthandAreas → [c, d] ≠ ['D', 'B'] → c ∉ genericAreas →
      ∃ l1, nodeBody tr metric w l node =
          .ok (w.log ["Error when parsing dbtype for address ".toList, node.Address], l1) ∧
        l1.items = l.items ∧ l1.dtype = l.dtype) := by
  constructor
  · intro c b bit wd hc hb hbit ha hw
    have hsw := addressSwitch_generic l node c b (decimal bit) hc (decimal_no_dot bit) ha
    have hp : (ParseInt (decimal bit) 16).1 = (bit : Int) := by
      rw [ParseInt_decimal, if_pos (by omega)]
    rw [hp, if_neg (by omega)] at hsw
    have hcb : clamp16 b = b := by simp [clamp16, hb]
    rw [hcb] at hsw
    rw [resolveNode_of_addressSwitch l _ node wd hpos hbuf hsw hw]
    rfl
  · intro c d rest ha hs hdb hc
    have hsw := addressSwitch_fallback_other l node c d rest ha hs hdb hc
    exact ⟨_, nodeBody_of_rejected tr metric w l _ node _ hm hsw, rfl, rfl⟩

/-- Claim C19 at `I0.1` declared bool and at `Q0.1`. -/
theorem resolve_generic_bit_witness :
    resolvedOf (resolveNode Locals.init (nodeAt "I0.1" "bool")) =
      some ([{ Area := 0x81, WordLen := 0x02, DBNumber := 0, Start := 0, Amount := 1,
               Data := 0, Error := [] }], [16]) ∧
    (∃ l1, nodeBody echoTransport { Name := "m".toList, Count := 1, Nodes := [] }
        { tstate := (), trace := [] } Locals.init (nodeAt "Q0.1" "bool") =
          .ok (World.log { tstate := (), trace := [] }
            ["Error when parsing dbtype for address ".toList, "Q0.1".toList], l1) ∧
        l1.items = [] ∧ l1.dtype = []) :=
  ⟨(resolve_generic_bit echoTransport { Name := "m".toList, Count := 1, Nodes := [] }
      { tstate := (), trace := [] } Locals.init (nodeAt "I0.1" "bool") (by decide)
      (by decide) (by decide)).1 'I' 0 1 1 (by decide) (by decide) (by decide) (by decide)
      (by decide),
   (resolve_generic_bit echoTransport { Name := "m".toList, Count := 1, Nodes := [] }
      { tstate := (), trace := [] } Locals.init (nodeAt "Q0.1" "bool") (by decide)
      (by decide) (by decide)).2 'Q' '0' ".1".toList (by decide) (by decide) (by decide)
      (by decide)⟩

/-! ## Claim C20: decode tags -/

/-- Claim C20: in any group, after any run of the node loop that returned, the tags in
`dtype` once the next node is resolved are each one of the constants 1..8 or `16 * k`
with `k` in 0..7; when the decode switch selects the bool case the bit index `tag >> 4`
is in 0..7 and the mask table has that entry; a tag 1..8 never selects the bool case;
and decoding under the tag never panics and yields a bool exactly in the bool case. -/
theorem decode_tags_valid {σ : Type} (tr : Transport σ) (metric : Metrics)
    (pre : List NodeSettings) (w w1 : World σ) (l l1 : Locals) (node : NodeSettings)
    (r : Option (List GoString))
    (hrun : nodeLoop tr metric pre w Locals.init = .ok (w1, l))
    (hres : resolveNode l node = .ok (l1, r)) :
    ∀ t ∈ l1.dtype,
      ((1 ≤ t ∧ t ≤ 8) ∨ ∃ k : Int, 0 ≤ k ∧ k ≤ 7 ∧ t = 16 * k) ∧
      (t % 16 = s7bool → 0 ≤ t / 16 ∧ t / 16 ≤ 7 ∧ ∃ m, index mask (t / 16) = .ok m) ∧
      (1 ≤ t ∧ t ≤ 8 → t % 16 ≠ s7bool) ∧
      ∀ buf i, ∃ v, decodeItem buf t i = .ok (some v) ∧
        ((∃ b, v = Value.bool b) ↔ t % 16 = s7bool) := by
  have hinv := resolveNode_tagInv l l1 node r
    (nodeLoop_tagInv tr metric pre w w1 Locals.init l TagInv_init hrun) hres
  intro t ht
  have hv := hinv.2 t ht
  refine ⟨?_, ?_, ?_, fun buf i => decodeItem_valid buf t i hv⟩
  · rcases hv with h | h
    · exact Or.inl h
    · exact Or.inr ((bitTag_iff t).mp h)
  · intro h0
    simp only [s7bool] at h0
    rcases hv with h | h
    · omega
    · have hk : t / 16 = ((t / 16).toNat : Int) := by have := h.2.1; omega
      have hk7 : (t / 16).toNat ≤ 7 := by have := h.2.2; omega
      refine ⟨h.2.1, h.2.2, 1 <<< (t / 16).toNat, ?_⟩
      have hmask := mask_entry (t / 16).toNat hk7
      rw [← hk] at hmask
      exact hmask
  · intro h
    simp only [s7bool]
    omega

/-- Claim C20 at `DB1.DBB0` declared bool after `DB1.DBX0.5`, where the bit value 5 is
left over from the earlier node: the tag appended is 80, it selects the bool case with
bit index 5, and decoding the slot `20 00 00 00` under it yields a bool. -/
theorem decode_tags_valid_witness :
    ((1 ≤ (80 : Int) ∧ (80 : Int) ≤ 8) ∨ ∃ k : Int, 0 ≤ k ∧ k ≤ 7 ∧ (80 : Int) = 16 * k) ∧
    ((80 : Int) % 16 = s7bool →
      0 ≤ (80 : Int) / 16 ∧ (80 : Int) / 16 ≤ 7 ∧ ∃ m, index mask ((80 : Int) / 16) = .ok m) ∧
    (∃ v, decodeItem [0x20, 0, 0, 0] 80 0 = .ok (some v) ∧
      ((∃ b, v = Value.bool b) ↔ (80 : Int) % 16 = s7bool)) := by
  have h := decode_tags_valid echoTransport { Name := "m".toList, Count := 2, Nodes := [] }
    [nodeAt "DB1.DBX0.5" "bool"] { tstate := (), trace := [] } _ _ _
    (nodeAt "DB1.DBB0" "bool") none rfl rfl
  have h80 := h 80 (by decide)
  exact ⟨h80.1, h80.2.1, h80.2.2.2 [0x20, 0, 0, 0] 0⟩

end s7comm
